import Mathlib

/-!
Shallow embedding of the staging pipeline of the Dev-Portal repository
(extraction → translation → packaging → vector-index upsert), together with
proofs of the behavioural properties stated in the design document.

Strings coming from the Python source are modelled as lists of characters
(`PyStr`); byte strings as lists of naturals < 256.  SHA-256 digests are kept
abstract: every definition that hashes text receives the digest function as an
explicit parameter, exactly as the source receives `sha256_text` by import.
-/

namespace DevPortal

/-- Python strings are modelled as lists of characters. -/
abbrev PyStr := List Char

/-- Whitespace characters recognised by `str.strip()` and by the `\s` class
(restricted to the ASCII whitespace set, which covers every use in this
development). -/
def isPySpace (c : Char) : Bool :=
  c = ' ' || c = '\t' || c = '\n' || c = '\r' || c = '\x0b' || c = '\x0c'

/-- `str.strip()`: remove leading and trailing whitespace. -/
def pyStrip (s : PyStr) : PyStr :=
  ((s.dropWhile isPySpace).reverse.dropWhile isPySpace).reverse

/-- `str.lower()` (ASCII case folding, which covers every use here). -/
def pyLower (s : PyStr) : PyStr :=
  s.map Char.toLower

/-- `"::" in s` — Python substring containment of the key delimiter. -/
def hasDoubleColon : PyStr → Bool
  | [] => false
  | [_] => false
  | a :: b :: rest => (a = ':' && b = ':') || hasDoubleColon (b :: rest)

/-- `':' in s`. -/
def hasColon (s : PyStr) : Bool :=
  s.any (· = ':')

instance {ε α : Type} [DecidableEq ε] [DecidableEq α] : DecidableEq (Except ε α)
  | .error e, .error f =>
    if h : e = f then .isTrue (by rw [h]) else .isFalse (by simp [h])
  | .error _, .ok _ => .isFalse (by simp)
  | .ok _, .error _ => .isFalse (by simp)
  | .ok a, .ok b =>
    if h : a = b then .isTrue (by rw [h]) else .isFalse (by simp [h])

namespace natural_key

/-- Character class of `_model_re = ^[a-z0-9._]+$` and `_xmlid_re`. -/
def isModelChar (c : Char) : Bool :=
  ('a' ≤ c && c ≤ 'z') || ('0' ≤ c && c ≤ '9') || c = '.' || c = '_'

/-- Character class of `_field_re = ^[a-z0-9_]+$`. -/
def isFieldChar (c : Char) : Bool :=
  ('a' ≤ c && c ≤ 'z') || ('0' ≤ c && c ≤ '9') || c = '_'

/-- Python `re.match(r"^[C]+$", s)`: the whole string is a nonempty run of
class characters, where `$` also matches just before one trailing newline. -/
def reFullMatch (p : Char → Bool) (s : PyStr) : Bool :=
  (!s.isEmpty && s.all p) ||
    (s.getLast? = some '\n' && !s.dropLast.isEmpty && s.dropLast.all p)

/-- `build_field_key(model, field_name)`: normalise both segments, reject a
segment containing `::` or failing its pattern, and build
`field::<model>::<field_name>`. -/
def build_field_key (model field_name : PyStr) : Except PyStr PyStr :=
  let m := pyLower (pyStrip model)
  let f := pyLower (pyStrip field_name)
  if hasDoubleColon m then .error ("Parts must not contain the separator".data)
  else if hasDoubleColon f then .error ("Parts must not contain the separator".data)
  else if !reFullMatch isModelChar m then .error ("Invalid model: ".data ++ model)
  else if !reFullMatch isFieldChar f then .error ("Invalid field name: ".data ++ field_name)
  else .ok ("field::".data ++ m ++ "::".data ++ f)

/-- `build_view_common_key(action_xmlid, target)`: normalise the action id,
reject `::`/pattern failures and targets outside the fixed set
(`Target = Literal[..]`, hence a `String`), and build
`view_common::<action_xmlid>::<target>`. -/
def build_view_common_key (action_xmlid : PyStr) (target : String) : Except PyStr PyStr :=
  let x := pyLower (pyStrip action_xmlid)
  if hasDoubleColon x then .error ("Parts must not contain the separator".data)
  else if !reFullMatch isModelChar x then .error ("Invalid action_xmlid: ".data ++ action_xmlid)
  else if !(target == "ai_purpose" || target == "help") then
    .error ("target must be ai_purpose or help".data)
  else .ok ("view_common::".data ++ x ++ "::".data ++ target.data)

end natural_key

/-! ## Translation Staging Store (`public.portal_translate`) -/

/-- One row of `public.portal_translate`. -/
structure TransRow where
  id : Nat
  entity : String
  natural_key : PyStr
  src_lang : String
  tgt_lang : String
  source_text : PyStr
  source_hash : PyStr
  translated_text : Option PyStr
  state : String
  last_error : Option PyStr
  model : Option PyStr := none
  model_table : Option PyStr := none
deriving DecidableEq

/-- The staging table plus the surrogate-id sequence. -/
structure TransStore where
  rows : List TransRow
  nextId : Nat
deriving DecidableEq

namespace TransStore

/-- Row lookup by the unique natural-key constraint
`(entity, natural_key, src_lang, tgt_lang)`. -/
def findSource (st : TransStore) (entity : String) (nk : PyStr)
    (sl tl : String) : Option TransRow :=
  st.rows.find? fun r =>
    r.entity = entity && r.natural_key = nk && r.src_lang = sl && r.tgt_lang = tl

/-- Row lookup by surrogate id. -/
def lookupId (st : TransStore) (i : Nat) : Option TransRow :=
  st.rows.find? (fun r => r.id = i)

/-- `UPDATE ... WHERE id=:id` applied through a row transformer. -/
def updateById (st : TransStore) (i : Nat) (f : TransRow → TransRow) : TransStore :=
  { st with rows := st.rows.map (fun r => if r.id = i then f r else r) }

/-- `PortalTranslateRepo.upsert_source`: insert a fresh `pending` row, skip on
`skip_existing` mode or unchanged hash, otherwise reset the row to `pending`
with the new text/hash and `translated_text`/`last_error` cleared. -/
def upsert_source (st : TransStore) (entity : String) (nk : PyStr) (sl tl : String)
    (source_text source_hash : PyStr) (mode : String) : String × TransStore :=
  match st.findSource entity nk sl tl with
  | none =>
      ("inserted",
        { rows := st.rows ++
            [{ id := st.nextId, entity := entity, natural_key := nk,
               src_lang := sl, tgt_lang := tl,
               source_text := source_text, source_hash := source_hash,
               translated_text := none, state := "pending", last_error := none }],
          nextId := st.nextId + 1 })
  | some row =>
      if mode = "skip_existing" then ("skipped_existing", st)
      else if row.source_hash = source_hash then ("skipped_no_change", st)
      else
        ("updated",
          { st with rows := st.rows.map fun r =>
              if r.entity = entity && r.natural_key = nk &&
                 r.src_lang = sl && r.tgt_lang = tl then
                { r with source_text := source_text, source_hash := source_hash,
                         translated_text := none, state := "pending",
                         last_error := none }
              else r })

/-- `services/extract._insert_translate`: INSERT a `pending` row with NULL
`translated_text` (and the extra `model` / `model_table` columns). -/
def insert_translate (st : TransStore) (entity : String) (nk : PyStr)
    (model model_table : Option PyStr) (source_text source_hash : PyStr)
    (sl tl : String) : TransStore :=
  { rows := st.rows ++
      [{ id := st.nextId, entity := entity, natural_key := nk,
         src_lang := sl, tgt_lang := tl,
         source_text := source_text, source_hash := source_hash,
         translated_text := none, state := "pending", last_error := none,
         model := model, model_table := model_table }],
    nextId := st.nextId + 1 }

/-- `services/extract._update_translate_if_changed`: reset the row (by id) to
`pending` with the new text/hash, clearing `translated_text`/`last_error`. -/
def update_translate_if_changed (st : TransStore) (i : Nat)
    (source_text source_hash : PyStr) : TransStore :=
  st.updateById i fun r =>
    { r with source_text := source_text, source_hash := source_hash,
             translated_text := none, last_error := none, state := "pending" }

/-- `services/translate._mark_translated`: store the provider result and move
the row to `translated`, clearing `last_error`. -/
def mark_translated (st : TransStore) (i : Nat) (tt : PyStr) : TransStore :=
  st.updateById i fun r =>
    { r with translated_text := some tt, state := "translated", last_error := none }

/-- `services/translate._mark_failed`: move the row to `failed` with the error
message truncated to 300 characters (`(error or "")[:300]`). -/
def mark_failed (st : TransStore) (i : Nat) (error : PyStr) : TransStore :=
  st.updateById i fun r =>
    { r with state := "failed", last_error := some (error.take 300) }

/-- `PortalTranslateRepo.mark_failed`: the repository variant truncates with
`substring(:err from 1 for 500)`. -/
def repo_mark_failed (st : TransStore) (i : Nat) (error : PyStr) : TransStore :=
  st.updateById i fun r =>
    { r with state := "failed", last_error := some (error.take 500) }

/-- `PortalTranslateRepo.mark_ready_for_chroma`: the batched post-packaging
update.  The SQL sets only `updated_at = now()` and `last_error = NULL` on
rows whose `natural_key` is in the batch and whose state is `translated`;
it does not write the `state` column. -/
def mark_ready_for_chroma (st : TransStore) (nks : List PyStr) : TransStore :=
  if nks = [] then st
  else
    { st with rows := st.rows.map fun r =>
        if decide (r.natural_key ∈ nks) && r.state = "translated" then
          { r with last_error := none }
        else r }

/-- `services/translate._pick_pending`: `pending` rows for the language pair
(optionally filtered by entity), by ascending id, up to `limit`. -/
def pick_pending (st : TransStore) (limit : Nat) (entities : Option (List String))
    (sl tl : String) : List TransRow :=
  ((st.rows.filter fun r =>
      r.state = "pending" && r.src_lang = sl && r.tgt_lang = tl &&
        (match entities with
         | none => true
         | some es => decide (r.entity ∈ es))).take limit)

/-- `PortalTranslateRepo.list_translated_for_pack`: `translated` rows of the
given entities, by ascending id, up to `limit`. -/
def list_translated_for_pack (st : TransStore) (entities : List String)
    (limit : Nat) : List TransRow :=
  (st.rows.filter fun r =>
      r.state = "translated" && decide (r.entity ∈ entities)).take limit

end TransStore

/-- The pending-rows invariant of the staging store: a `pending` row never has
a non-null `translated_text`. -/
def PendingNull (st : TransStore) : Prop :=
  ∀ r ∈ st.rows, r.state = "pending" → r.translated_text = none

/-- `source_hash` reflects `source_text` as last written, for digest `h`. -/
def HashReflects (h : PyStr → PyStr) (st : TransStore) : Prop :=
  ∀ r ∈ st.rows, r.source_hash = h r.source_text

/-- Every write to the Translation Staging Store that occurs in the pipeline,
as one inductive type (repository layer plus the two service layers). -/
inductive TransOp where
  | upsertSource (entity : String) (nk : PyStr) (sl tl : String)
      (text hash : PyStr) (mode : String)
  | insertTranslate (entity : String) (nk : PyStr) (model mtable : Option PyStr)
      (text hash : PyStr) (sl tl : String)
  | updateIfChanged (i : Nat) (text hash : PyStr)
  | markTranslated (i : Nat) (tt : PyStr)
  | markFailed (i : Nat) (err : PyStr)
  | repoMarkFailed (i : Nat) (err : PyStr)
  | markReadyForChroma (nks : List PyStr)

/-- Effect of a `TransOp` on the store. -/
def TransOp.apply (st : TransStore) : TransOp → TransStore
  | .upsertSource e nk sl tl text hash mode =>
      (st.upsert_source e nk sl tl text hash mode).2
  | .insertTranslate e nk model mtable text hash sl tl =>
      st.insert_translate e nk model mtable text hash sl tl
  | .updateIfChanged i text hash => st.update_translate_if_changed i text hash
  | .markTranslated i tt => st.mark_translated i tt
  | .markFailed i err => st.mark_failed i err
  | .repoMarkFailed i err => st.repo_mark_failed i err
  | .markReadyForChroma nks => st.mark_ready_for_chroma nks

/-- An operation is hash-consistent when the digest it writes is the digest of
the text it writes — exactly how every caller in the source computes the pair
(`sha256_text(src_text)` right before the write). -/
def TransOp.HashConsistent (h : PyStr → PyStr) : TransOp → Prop
  | .upsertSource _ _ _ _ text hash _ => hash = h text
  | .insertTranslate _ _ _ _ text hash _ _ => hash = h text
  | .updateIfChanged _ text hash => hash = h text
  | _ => True

/-! ## UTF-8 bytes, Python slicing, and the two truncation routines -/

/-- UTF-8 encoding of one character (arithmetic form of the bit layout). -/
def utf8EncodeChar (c : Char) : List Nat :=
  let n := c.toNat
  if n < 0x80 then [n]
  else if n < 0x800 then [0xC0 + n / 64, 0x80 + n % 64]
  else if n < 0x10000 then
    [0xE0 + n / 4096, 0x80 + (n / 64) % 64, 0x80 + n % 64]
  else
    [0xF0 + n / 262144, 0x80 + (n / 4096) % 64, 0x80 + (n / 64) % 64, 0x80 + n % 64]

/-- `s.encode("utf-8")`. -/
def utf8Encode (s : PyStr) : List Nat :=
  s.flatMap utf8EncodeChar

/-- Encoded byte length of a string. -/
def utf8Len (s : PyStr) : Nat :=
  (utf8Encode s).length

/-- UTF-8 continuation byte: `b & 0xC0 == 0x80`. -/
def isCont (b : Nat) : Bool :=
  0x80 ≤ b && b < 0xC0

/-- Allowed first continuation after a three-byte lead (RFC 3629 table). -/
def cont3ok (b b1 : Nat) : Bool :=
  if b = 0xE0 then 0xA0 ≤ b1 && b1 ≤ 0xBF
  else if b = 0xED then 0x80 ≤ b1 && b1 ≤ 0x9F
  else isCont b1

/-- Allowed first continuation after a four-byte lead (RFC 3629 table). -/
def cont4ok (b b1 : Nat) : Bool :=
  if b = 0xF0 then 0x90 ≤ b1 && b1 ≤ 0xBF
  else if b = 0xF4 then 0x80 ≤ b1 && b1 ≤ 0x8F
  else isCont b1

/-- One step of the UTF-8 decoder at lead byte `b` followed by `rest`:
`none` means an incomplete sequence at end of input (dropped wholesale);
`some (oc, k)` consumes `b` plus `k` bytes of `rest` and emits `oc`
(`none` for a maximal invalid subpart, which `errors="ignore"` drops). -/
def utf8StepCount (b : Nat) (rest : List Nat) : Option (Option Char × Nat) :=
  if b < 0x80 then some (some (Char.ofNat b), 0)
  else if 0xC2 ≤ b && b ≤ 0xDF then
    match rest with
    | [] => none
    | b1 :: _ =>
      if isCont b1 then some (some (Char.ofNat ((b - 0xC0) * 64 + (b1 - 0x80))), 1)
      else some (none, 0)
  else if 0xE0 ≤ b && b ≤ 0xEF then
    match rest with
    | [] => none
    | b1 :: rest1 =>
      if cont3ok b b1 then
        match rest1 with
        | [] => none
        | b2 :: _ =>
          if isCont b2 then
            some (some (Char.ofNat ((b - 0xE0) * 4096 + (b1 - 0x80) * 64 + (b2 - 0x80))), 2)
          else some (none, 1)
      else some (none, 0)
  else if 0xF0 ≤ b && b ≤ 0xF4 then
    match rest with
    | [] => none
    | b1 :: rest1 =>
      if cont4ok b b1 then
        match rest1 with
        | [] => none
        | b2 :: rest2 =>
          if isCont b2 then
            match rest2 with
            | [] => none
            | b3 :: _ =>
              if isCont b3 then
                some (some (Char.ofNat ((b - 0xF0) * 262144 + (b1 - 0x80) * 4096 +
                    (b2 - 0x80) * 64 + (b3 - 0x80))), 3)
              else some (none, 2)
          else some (none, 1)
      else some (none, 0)
  else some (none, 0)

/-- `bytes.decode("utf-8", errors="ignore")`: decode well-formed sequences and
drop maximal invalid or incomplete subparts. -/
def utf8DecodeIgnore : List Nat → PyStr
  | [] => []
  | b :: rest =>
    match utf8StepCount b rest with
    | none => []
    | some (oc, k) =>
      match oc with
      | some c => c :: utf8DecodeIgnore (rest.drop k)
      | none => utf8DecodeIgnore (rest.drop k)
termination_by l => l.length
decreasing_by all_goals (simp [List.length_drop, List.length_cons]; omega)

/-- Python slicing `l[:k]` where `k` may be negative. -/
def pySliceTo (l : List Nat) (k : Int) : List Nat :=
  if k < 0 then l.take (l.length - (-k).toNat) else l.take k.toNat

/-- The `while clipped and (clipped[-1] & 0xC0) == 0x80` loop of
`PackService._truncate`: drop trailing continuation bytes. -/
def stripTrailingCont (l : List Nat) : List Nat :=
  (l.reverse.dropWhile isCont).reverse

/-- `PackService._truncate` with byte budget `limit` (`PACK_TEXT_LIMIT`):
return short strings unchanged, otherwise clip the encoding at
`limit - 3` (a Python slice, so negative for `limit < 3`), avoid splitting a
multi-byte character, decode with `errors="ignore"` and append an ellipsis. -/
def pack_truncate (limit : Nat) (s : PyStr) : PyStr :=
  let data := utf8Encode s
  if data.length ≤ limit then s
  else
    utf8DecodeIgnore (stripTrailingCont (pySliceTo data ((limit : Int) - 3))) ++ ['…']

/-- `chroma_upsert._safe_truncate_utf8`: byte-budget truncation that clips the
encoding and decodes with `errors="ignore"`. -/
def safe_truncate_utf8 (s : PyStr) (maxBytes : Nat) : PyStr :=
  if s.isEmpty then []
  else
    let b := utf8Encode s
    if b.length ≤ maxBytes then s
    else utf8DecodeIgnore (b.take maxBytes)

/-! ## Text normalization used by extraction and packaging -/

/-- `s.replace("\r\n", "\n").replace("\r", "\n")`. -/
def normCR : PyStr → PyStr
  | [] => []
  | '\r' :: '\n' :: rest => '\n' :: normCR rest
  | '\r' :: rest => '\n' :: normCR rest
  | c :: rest => c :: normCR rest

/-- Horizontal whitespace (`[ \t\f\v]`), as in `services/extract._ws_re`. -/
def isHardSpace (c : Char) : Bool :=
  c = ' ' || c = '\t' || c = '\x0c' || c = '\x0b'

/-- `re.sub(r"\s*\n\s*", "\n", s)`: every maximal whitespace run containing a
newline collapses to one newline. -/
def nlCollapse (s : PyStr) : PyStr :=
  ((s.splitBy fun a b => isPySpace a == isPySpace b).map fun g =>
    if g.all isPySpace then (if g.contains '\n' then ['\n'] else g) else g).flatten

/-- `re.sub(r"[ \t\f\v]+", " ", s)`: maximal horizontal-whitespace runs
collapse to one space. -/
def wsCollapse (s : PyStr) : PyStr :=
  ((s.splitBy fun a b => isHardSpace a == isHardSpace b).map fun g =>
    if g.all isHardSpace then [' '] else g).flatten

/-- `services/extract._normalize_plain`. -/
def normalize_plain (s : PyStr) : PyStr :=
  if s.isEmpty then []
  else pyStrip (wsCollapse (nlCollapse (pyStrip (normCR s))))

/-- Multilingual label payloads (string-valued entries of the JSONB dict). -/
abbrev LabelDict := List (String × PyStr)

/-- `dict.get(k)` on an association list. -/
def dictGet (d : LabelDict) (k : String) : Option PyStr :=
  (d.find? fun kv => kv.1 = k).map (·.2)

/-- First key of `keys` whose stripped value is non-blank, stripped. -/
def firstNonBlank (d : LabelDict) : List String → PyStr
  | [] => []
  | k :: ks =>
    match dictGet d k with
    | some v => if (pyStrip v).isEmpty then firstNonBlank d ks else pyStrip v
    | none => firstNonBlank d ks

/-- `services/extract._label_ja`: the `ja` label, falling back to `ja_JP`. -/
def label_ja (d : LabelDict) : PyStr :=
  firstNonBlank d ["ja", "ja_JP"]

/-- `services/extract._has_en`: a non-blank `en`/`en_US` entry (or the extra
text) marks the row as already translated. -/
def has_en (d : LabelDict) (extra : Option PyStr) : Bool :=
  (["en", "en_US"].any fun k =>
    match dictGet d k with
    | some v => !(pyStrip v).isEmpty
    | none => false) ||
  (match extra with
   | some e => !(pyStrip e).isEmpty
   | none => false)

/-! ## Extraction Engine (`services/extract.py`, field entity) -/

/-- One source row of `public.portal_fields` as fetched by `_fetch_fields`. -/
structure FieldSrcRow where
  model : PyStr
  model_table : Option PyStr
  field_name : PyStr
  label_i18n : LabelDict
  notes : PyStr
deriving DecidableEq

/-- Aggregate result of an extraction run (`res` dict of `extract_field`). -/
structure ExtractRes where
  picked : Nat := 0
  inserted : Nat := 0
  updated : Nat := 0
  skipped_no_ja : Nat := 0
  skipped_has_en : Nat := 0
  skipped_not_found : Nat := 0
  details : List (PyStr × String) := []
deriving DecidableEq

/-- The natural key literal `f"field::{model}::{field_name}"` (built from the
raw row values, as in the service). -/
def fieldNk (r : FieldSrcRow) : PyStr :=
  "field::".data ++ r.model ++ "::".data ++ r.field_name

/-- The normalized source text of a field row: normalized `ja` label, plus the
normalized notes joined by a blank line when non-empty. -/
def fieldSrcText (r : FieldSrcRow) : PyStr :=
  let ja_label := label_ja r.label_i18n
  let ja_notes := normalize_plain r.notes
  let src := normalize_plain ja_label
  if ja_notes.isEmpty then src else pyStrip (src ++ "\n\n".data ++ ja_notes)

/-- The per-row body of `extract_field`: skip decisions, then upsert into the
staging store.  Returns the new store, the updated result record and the
number of writes (INSERT/UPDATE statements) executed for this row. -/
def extract_field_row (sha256 : PyStr → PyStr) (mode : String)
    (st : TransStore) (res : ExtractRes) (r : FieldSrcRow) :
    TransStore × ExtractRes × Nat :=
  let src_text := fieldSrcText r
  if src_text.isEmpty then
    (st, { res with
           skipped_no_ja := res.skipped_no_ja + 1,
           details := res.details ++ [(fieldNk r, "no_ja")] }, 0)
  else if has_en r.label_i18n none then
    (st, { res with
           skipped_has_en := res.skipped_has_en + 1,
           details := res.details ++ [(fieldNk r, "has_en")] }, 0)
  else
    let res := { res with picked := res.picked + 1 }
    let nk := fieldNk r
    let sh := sha256 src_text
    match st.findSource "field" nk "ja_JP" "en_US" with
    | some existing =>
      if mode = "skip_existing" then
        (st, { res with details := res.details ++ [(nk, "exists_skip")] }, 0)
      else if existing.source_hash = sh then
        (st, { res with details := res.details ++ [(nk, "no_change")] }, 0)
      else
        (st.update_translate_if_changed existing.id src_text sh,
         { res with updated := res.updated + 1 }, 1)
    | none =>
      if mode = "upsert" || mode = "upsert_if_changed" then
        (st.insert_translate "field" nk r.model r.model_table src_text sh "ja_JP" "en_US",
         { res with inserted := res.inserted + 1 }, 1)
      else
        (st, { res with details := res.details ++ [(nk, "mode_skip")] }, 0)

/-- `extract_field` over its fetched rows: fold the per-row body, summing the
write count. -/
def extract_field (sha256 : PyStr → PyStr) (mode : String)
    (rows : List FieldSrcRow) (st : TransStore) : TransStore × ExtractRes × Nat :=
  rows.foldl
    (fun acc r =>
      let (st', res', w) := extract_field_row sha256 mode acc.1 acc.2.1 r
      (st', res', acc.2.2 + w))
    (st, {}, 0)

/-- The `extract_field` loop generalised over its accumulator, for reasoning
about intermediate states of the fold. -/
def extract_field_go (sha256 : PyStr → PyStr) (mode : String)
    (rows : List FieldSrcRow) (acc : TransStore × ExtractRes × Nat) :
    TransStore × ExtractRes × Nat :=
  rows.foldl
    (fun acc r =>
      let (st', res', w) := extract_field_row sha256 mode acc.1 acc.2.1 r
      (st', res', acc.2.2 + w))
    acc

/-! ## Translation Runner (`services/translate.py`) -/

/-- `_trim`: cap provider input at 2000 characters, appending an ellipsis. -/
def trim2000 (s : PyStr) : PyStr :=
  if s.isEmpty then []
  else if s.length > 2000 then s.take 2000 ++ ['…'] else s

/-- Result record of a translation run. -/
structure TranslateRunRes where
  picked : Nat := 0
  translated : Nat := 0
  failed : Nat := 0
  samples : List (PyStr × String) := []
deriving DecidableEq

/-- The body of the `run_translate` loop.  The provider is an oracle indexed
by row position: `provider i text` is the result of
`provider.translate([text], src, tgt)[0]` for the `i`-th picked row, where an
`error` value stands for a raised exception (caught per row). -/
def run_translate_loop (provider : Nat → PyStr → Except PyStr PyStr) :
    List TransRow → Nat → TransStore → TranslateRunRes → TransStore × TranslateRunRes
  | [], _, st, res => (st, res)
  | r :: rest, i, st, res =>
    match provider i (trim2000 r.source_text) with
    | .ok tt =>
      run_translate_loop provider rest (i + 1) (st.mark_translated r.id tt)
        { res with
          translated := res.translated + 1,
          samples := if res.samples.length < 5 then
              res.samples ++ [(r.natural_key, "translated")] else res.samples }
    | .error e =>
      run_translate_loop provider rest (i + 1) (st.mark_failed r.id e)
        { res with
          failed := res.failed + 1,
          samples := if res.samples.length < 5 then
              res.samples ++ [(r.natural_key, "failed")] else res.samples }

/-- `run_translate`: pick pending rows, then loop; `picked` is the number of
picked rows. -/
def run_translate (provider : Nat → PyStr → Except PyStr PyStr)
    (st : TransStore) (limit : Nat) (entities : Option (List String))
    (sl tl : String) : TransStore × TranslateRunRes :=
  let rows := st.pick_pending limit entities sl tl
  run_translate_loop provider rows 0 st { picked := rows.length }

/-! ## Vector-Document Staging Store (`public.portal_chroma_doc`) -/

/-- Metadata attribute values: a string or SQL NULL (richer JSON values do not
occur on any path the claims exercise). -/
abbrev MetaDict := List (String × Option PyStr)

/-- One row of `public.portal_chroma_doc`. -/
structure DocRow where
  id : Nat
  doc_id : PyStr
  entity : String
  natural_key : PyStr
  lang : String
  collection : PyStr
  model : Option PyStr
  doc_text : PyStr
  meta : MetaDict
  source_hash : Option PyStr
  state : String
  last_error : Option PyStr
deriving DecidableEq

/-- The vector-document staging table plus its surrogate-id sequence. -/
structure DocStore where
  rows : List DocRow
  nextId : Nat
deriving DecidableEq

namespace DocStore

/-- Lookup on the `(entity, natural_key, lang)` key used by the packaging
upsert (`_SQL_SELECT_ONE`). -/
def findDoc (st : DocStore) (entity : String) (nk : PyStr) (lang : String) :
    Option DocRow :=
  st.rows.find? fun r => r.entity = entity && r.natural_key = nk && r.lang = lang

/-- Modelled from the spec: `PortalChromaDocRepo.upsert`, the hash-comparing
single-row upsert that `PackService.pack` invokes as
`self.doc_repo.upsert(entity=…, natural_key=…, lang=…, doc_text=…, meta=…,
source_hash=…, collection=…)` and that is missing from the source tree (the
file only contains the unconditional `upsert_one`).  Per §3/§4.4 of the spec:
an existing row with the same `source_hash` is left untouched and the call
reports `skipped_no_change`; otherwise the row is written with the new
content and reset to state `queued` with `last_error` cleared (a fresh row is
inserted as `queued`).  The returned `doc_id` is the stored one, or the
spec's derived `<natural_key>::<lang>` for a fresh row. -/
def upsert (st : DocStore) (entity : String) (nk : PyStr) (lang : String)
    (doc_text : PyStr) (meta : MetaDict) (source_hash : PyStr)
    (collection : PyStr) : (String × PyStr) × DocStore :=
  match st.findDoc entity nk lang with
  | some row =>
    if row.source_hash = some source_hash then
      (("skipped_no_change", row.doc_id), st)
    else
      (("queued", row.doc_id),
        { st with rows := st.rows.map fun r =>
            if r.entity = entity && r.natural_key = nk && r.lang = lang then
              { r with doc_text := doc_text, meta := meta,
                       source_hash := some source_hash,
                       collection := collection,
                       state := "queued", last_error := none }
            else r })
  | none =>
    let derived := if hasDoubleColon nk then nk ++ "::".data ++ lang.data else nk
    (("queued", derived),
      { rows := st.rows ++
          [{ id := st.nextId, doc_id := derived, entity := entity,
             natural_key := nk, lang := lang, collection := collection,
             model := none, doc_text := doc_text, meta := meta,
             source_hash := some source_hash, state := "queued",
             last_error := none }],
        nextId := st.nextId + 1 })

/-- `PortalChromaDocRepo.list_queued`: `queued` rows, optionally restricted to
a collection list, by ascending id, up to `limit`. -/
def list_queued (st : DocStore) (collections : Option (List PyStr))
    (limit : Nat) : List DocRow :=
  (st.rows.filter fun r =>
    r.state = "queued" &&
      (match collections with
       | none => true
       | some cs => decide (r.collection ∈ cs))).take limit

/-- `PortalChromaDocRepo.mark_upserted`. -/
def mark_upserted (st : DocStore) (i : Nat) : DocStore :=
  { st with rows := st.rows.map fun r =>
      if r.id = i then { r with state := "upserted", last_error := none } else r }

/-- `PortalChromaDocRepo.mark_failed` (reason capped at 2000 characters). -/
def mark_failed (st : DocStore) (i : Nat) (error : PyStr) : DocStore :=
  { st with rows := st.rows.map fun r =>
      if r.id = i then { r with state := "failed", last_error := some (error.take 2000) }
      else r }

end DocStore

/-! ## Packaging Engine (`services/package.py`) -/

/-- Python `x or default` on an optional string: `None` and `""` are falsy. -/
def orFalsy (v : Option PyStr) (d : PyStr) : PyStr :=
  match v with
  | some x => if x.isEmpty then d else x
  | none => d

/-- `" ".join(s.split())` — the `_norm_ws` fallback of `services/package.py`. -/
def norm_ws (s : PyStr) : PyStr :=
  List.intercalate [' ']
    ((s.splitBy fun a b => isPySpace a == isPySpace b).filter fun g => !g.any isPySpace)

/-- `re.sub(r"\n{3,}", "\n" * 2, s)`: cap runs of newlines at two. -/
def nlLimit2 (s : PyStr) : PyStr :=
  ((s.splitBy fun a b => (a = '\n') == (b = '\n')).map fun g =>
    if g.all (· = '\n') && decide (3 ≤ g.length) then ['\n', '\n'] else g).flatten

/-- The `_norm_nl` fallback of `services/package.py` (CR normalization, cap
consecutive newlines at 2, strip). -/
def norm_nl (s : PyStr) : PyStr :=
  pyStrip (nlLimit2 (normCR s))

/-- Where the regex `<[^>]+>` matches at the head of `rest` (which follows a
literal `<`): the number of bytes the whole match consumes from `rest`. -/
def tagEnd (rest : PyStr) : Option Nat :=
  let inner := rest.takeWhile (· ≠ '>')
  if inner.isEmpty then none
  else
    match rest.drop inner.length with
    | '>' :: _ => some (inner.length + 1)
    | _ => none

/-- `_TAG_RE.sub('', s)`: remove `<[^>]+>` tags. -/
def stripTags : PyStr → PyStr
  | [] => []
  | c :: rest =>
    if c = '<' then
      match tagEnd rest with
      | some k => stripTags (rest.drop k)
      | none => c :: stripTags rest
    else c :: stripTags rest
termination_by l => l.length
decreasing_by all_goals (simp [List.length_drop] <;> omega)

/-- `utils/html_strip.strip_html`, with the stdlib `html.unescape` kept
abstract as a parameter. -/
def strip_html (unescape : PyStr → PyStr) (s : PyStr) : PyStr :=
  if s.isEmpty then [] else stripTags (unescape s)

/-- `PackService._norm_label`. -/
def norm_label (s : PyStr) : PyStr :=
  norm_ws (norm_nl s)

/-- `PackService._norm_help`. -/
def norm_help (unescape : PyStr → PyStr) (s : PyStr) : PyStr :=
  norm_nl (norm_ws (strip_html unescape s))

/-- `package_templates.render_field_doc`. -/
def render_field_doc (label_ja model field_name model_table ttype jp_datatype
    notes_ja : PyStr) : PyStr :=
  let desc_line :=
    if (pyStrip notes_ja).isEmpty then [] else "【説明】".data ++ notes_ja
  let lines :=
    ["【フィールド】".data ++ label_ja ++ "（".data ++ model ++ ".".data ++
        field_name ++ "）".data,
     "【データ型】".data ++ jp_datatype ++ "（ttype=".data ++ ttype ++ "）".data,
     desc_line,
     "【モデル】".data ++ model ++ " / ".data ++ model_table]
  List.intercalate ['\n'] (lines.filter fun l => !l.isEmpty)

/-- `package_templates.render_view_common_doc`. -/
def render_view_common_doc (action_display ai_purpose_ja help_ja_text model_tech
    model_table : PyStr) (primary_view_type : Option PyStr) : PyStr :=
  List.intercalate ['\n']
    ["【画面】".data ++ action_display,
     "【目的】".data ++ ai_purpose_ja,
     "【使い方】".data ++ help_ja_text,
     "【モデル】".data ++ model_tech ++ " / ".data ++ model_table ++
        " / 主ビュー=".data ++ (primary_view_type.getD [])]

/-- `natural_key.split("::", 2)` when it yields three parts (the service
unpacks `_, x, y`; fewer parts raise and take the failure branch). -/
def splitNk3 (s : PyStr) : Option (PyStr × PyStr × PyStr) :=
  match hasDoubleColonSplit s with
  | none => none
  | some (a, rest) =>
    match hasDoubleColonSplit rest with
    | none => none
    | some (b, c) => some (a, b, c)
where
  hasDoubleColonSplit : PyStr → Option (PyStr × PyStr)
    | [] => none
    | [_] => none
    | a :: b :: rest =>
      if a = ':' && b = ':' then some ([], rest)
      else (hasDoubleColonSplit (b :: rest)).map fun p => (a :: p.1, p.2)

/-- Live field metadata as returned by
`PortalFieldRepo.batch_lookup_by_model_and_fields` for one `(model, field)`. -/
structure FieldMeta where
  label_i18n : LabelDict
  notes : Option PyStr
  ttype : Option PyStr
  jp_datatype : Option PyStr
  model_table : Option PyStr
  updated_at : Option PyStr
deriving DecidableEq

/-- Live view metadata as returned by
`PortalViewCommonRepo.batch_lookup_by_action_xmlids` for one action. -/
structure VcMeta where
  action_name : Option PyStr
  ai_purpose : Option PyStr
  help_ja_text : Option PyStr
  model_tech : Option PyStr
  model_table : Option PyStr
  primary_view_type : Option PyStr
  view_types : Option PyStr
  common_id : Option PyStr
  updated_at : Option PyStr
deriving DecidableEq

/-- External collaborators of the Packaging Engine: the SHA-256 digest, the
stdlib HTML `unescape`, the two batched metadata lookups of step 2 (exposed
as maps over normalized keys, exactly the normalized dictionaries
`field_map` / `vc_map` that `pack` builds once per run) and the relational
`_pick_jp_datatype_label` helper. -/
structure PackEnv where
  sha256 : PyStr → PyStr
  unescape : PyStr → PyStr
  fieldMeta : PyStr → PyStr → Option FieldMeta
  vcMeta : PyStr → Option VcMeta
  jpDatatype : PyStr → PyStr

/-- One entry of the `samples` list of a packaging run. -/
structure PackSample where
  doc_id : PyStr
  collection : PyStr
  model : Option PyStr
  status : String
deriving DecidableEq

/-- Accumulator of the main packaging loop. -/
structure PackAcc where
  doc : DocStore
  queued : Nat := 0
  skipped_no_change : Nat := 0
  failed : Nat := 0
  samples : List PackSample := []
  ready_nks : List PyStr := []
deriving DecidableEq

/-- Append a sample if below `PACK_SAMPLES_MAX`. -/
def PackAcc.addSample (acc : PackAcc) (samplesMax : Nat) (s : PackSample) : PackAcc :=
  if acc.samples.length < samplesMax then { acc with samples := acc.samples ++ [s] }
  else acc

/-- `failed += 1`. -/
def PackAcc.addFailed (acc : PackAcc) : PackAcc :=
  { acc with failed := acc.failed + 1 }

/-- The content hash `pack` computes for a field row:
`sha256_text(f"{label_ja_n}\n\n{notes_ja_n}")`. -/
def packFieldHash (env : PackEnv) (m : FieldMeta) : PyStr :=
  env.sha256 (norm_label ((dictGet m.label_i18n "ja").getD []) ++ "\n\n".data ++
    norm_help env.unescape (m.notes.getD []))

/-- The content hash `pack` computes for a view-common row:
`sha256_text(f"{ai_purpose_ja_n}\n\n{help_ja_text_n}")`. -/
def packVcHash (env : PackEnv) (vc : VcMeta) : PyStr :=
  env.sha256 (norm_label (vc.ai_purpose.getD []) ++ "\n\n".data ++
    norm_help env.unescape (vc.help_ja_text.getD []))

/-- Step 3 of `PackService.pack` for one `translated` staging row: parse the
natural key, look up live metadata, render/normalize/hash, upsert into the
vector-document store and dispatch on the outcome. -/
def pack_row (env : PackEnv) (lang : String) (textLimit samplesMax : Nat)
    (fieldColl vcColl : PyStr) (acc : PackAcc) (r : TransRow) : PackAcc :=
  if r.entity = "field" then
    match splitNk3 r.natural_key with
    | none =>
      (acc.addSample samplesMax ⟨[], fieldColl, none, "failed"⟩).addFailed
    | some (_, model, field_name) =>
      let k_model := pyLower (pyStrip model)
      let k_field := pyLower (pyStrip field_name)
      match env.fieldMeta k_model k_field with
      | none =>
        (acc.addSample samplesMax ⟨[], fieldColl, some model, "failed"⟩).addFailed
      | some m =>
        let label_ja := (dictGet m.label_i18n "ja").getD []
        let notes_ja := m.notes.getD []
        let ttype := orFalsy m.ttype "char".data
        let jp_dt :=
          let j := orFalsy m.jp_datatype []
          if j.isEmpty then env.jpDatatype ttype else j
        let label_ja_n := norm_label label_ja
        let notes_ja_n := norm_help env.unescape notes_ja
        let src_hash := packFieldHash env m
        let doc_text := pack_truncate textLimit
          (render_field_doc label_ja_n model field_name (m.model_table.getD [])
            ttype jp_dt notes_ja_n)
        let meta : MetaDict :=
          [("entity", some "field".data), ("natural_key", some r.natural_key),
           ("lang", some lang.data), ("model", some model),
           ("model_table", m.model_table), ("field_name", some field_name),
           ("ttype", some ttype), ("collection", some fieldColl),
           ("label_ja", some label_ja_n), ("notes_ja", some notes_ja_n),
           ("source_row_updated_at", m.updated_at)]
        let ((result, doc_id), doc') :=
          acc.doc.upsert "field" r.natural_key lang doc_text meta src_hash fieldColl
        if result = "skipped_no_change" then
          { acc with doc := doc', skipped_no_change := acc.skipped_no_change + 1 }
        else
          ({ acc with
             doc := doc', queued := acc.queued + 1,
             ready_nks := acc.ready_nks ++ [r.natural_key] }).addSample samplesMax
            ⟨doc_id, fieldColl, some model, "queued"⟩
  else if r.entity = "view_common" then
    match splitNk3 r.natural_key with
    | none =>
      (acc.addSample samplesMax ⟨[], vcColl, none, "failed"⟩).addFailed
    | some (_, action_xmlid, target) =>
      if !(target == "ai_purpose".data || target == "help".data) then
        (acc.addSample samplesMax ⟨[], vcColl, none, "failed"⟩).addFailed
      else
        let nk_view := "view_common::".data ++ action_xmlid ++ "::".data ++ target
        let k_action := pyLower (pyStrip action_xmlid)
        match env.vcMeta k_action with
        | none =>
          (acc.addSample samplesMax ⟨[], vcColl, none, "failed"⟩).addFailed
        | some vc =>
          let ai_purpose_ja_n := norm_label (vc.ai_purpose.getD [])
          let help_ja_text_n := norm_help env.unescape (vc.help_ja_text.getD [])
          let src_hash := packVcHash env vc
          let action_display := orFalsy vc.action_name action_xmlid
          let doc_text := pack_truncate textLimit
            (render_view_common_doc action_display ai_purpose_ja_n help_ja_text_n
              (vc.model_tech.getD []) (vc.model_table.getD []) vc.primary_view_type)
          let meta : MetaDict :=
            [("entity", some "view_common".data), ("natural_key", some nk_view),
             ("lang", some lang.data), ("action_xmlid", some action_xmlid),
             ("model_tech", vc.model_tech), ("model_table", vc.model_table),
             ("primary_view_type", vc.primary_view_type),
             ("collection", some vcColl), ("ai_purpose_ja", some ai_purpose_ja_n),
             ("help_ja_text", some help_ja_text_n), ("view_types", vc.view_types),
             ("common_id", vc.common_id),
             ("source_row_updated_at", vc.updated_at), ("target", some target)]
          let ((result, doc_id), doc') :=
            acc.doc.upsert "view_common" nk_view lang doc_text meta src_hash vcColl
          if result = "skipped_no_change" then
            { acc with doc := doc', skipped_no_change := acc.skipped_no_change + 1 }
          else
            ({ acc with
               doc := doc', queued := acc.queued + 1,
               ready_nks := acc.ready_nks ++ [nk_view] }).addSample samplesMax
              ⟨doc_id, vcColl, vc.model_tech, "queued"⟩
  else acc

/-- Result record of a packaging run, with the internal `ready_nks` list
exposed alongside the returned counters. -/
structure PackRes where
  queued : Nat
  skipped_no_change : Nat
  failed : Nat
  samples : List PackSample
  ready_nks : List PyStr
deriving DecidableEq

/-- `PackService.pack`: filter entities, read `translated` rows, run the main
loop, then promote the ready natural keys via
`PortalTranslateRepo.mark_ready_for_chroma`. -/
def pack (env : PackEnv) (st : TransStore) (doc : DocStore)
    (entities : List String) (lang : String) (collField collVc : Option PyStr)
    (limit textLimit samplesMax : Nat) (defaultFieldColl defaultVcColl : PyStr) :
    TransStore × DocStore × PackRes :=
  let ents :=
    let sel := entities.filter fun e => e = "field" || e = "view_common"
    if sel.isEmpty then ["field", "view_common"] else sel
  let rows := st.list_translated_for_pack ents limit
  let fieldColl := collField.getD defaultFieldColl
  let vcColl := collVc.getD defaultVcColl
  let acc := rows.foldl (pack_row env lang textLimit samplesMax fieldColl vcColl)
    { doc := doc }
  let st' := st.mark_ready_for_chroma acc.ready_nks
  (st', acc.doc,
    ⟨acc.queued, acc.skipped_no_change, acc.failed, acc.samples, acc.ready_nks⟩)

/-! ## Index Upsert Service (`services/chroma_upsert.py`, `services/chroma_client.py`) -/

/-- `_choose_document_id`: stored `doc_id` first, else the natural key; a base
containing `::` is language-qualified with `::<lang>`; a blank base gives the
empty id. -/
def choose_document_id (doc_id natural_key : Option PyStr) (lang : String) : PyStr :=
  let d := pyStrip (doc_id.getD [])
  let base := if d.isEmpty then pyStrip (natural_key.getD []) else d
  if base.isEmpty then []
  else if hasDoubleColon base then base ++ "::".data ++ lang.data
  else base

/-- `_sanitize_metadata` restricted to the string-or-NULL values of `MetaDict`:
drop NULLs and cap every string at 8 KiB (UTF-8 safe). -/
def sanitize_metadata (meta : MetaDict) : List (String × PyStr) :=
  meta.filterMap fun kv =>
    match kv.2 with
    | none => none
    | some v =>
      let b := utf8Encode v
      some (kv.1, if 8192 < b.length then utf8DecodeIgnore (b.take 8192) else v)

/-- One element of the per-collection batch handed to `embed_and_upsert`:
`(id, text, metadata)`. -/
structure ChromaItem where
  id : PyStr
  text : PyStr
  meta : List (String × PyStr)
deriving DecidableEq

/-- Step 4 of `ChromaUpsertService.run` for one collection: derive each
document id, skip rows whose derived id is empty, truncate the text to
`MAX_DOC_BYTES` and sanitize the metadata.  Returns the batch items, the
`skipped` count and the `id_to_rowid` association. -/
def build_items (docs : List DocRow) : List ChromaItem × Nat × List (PyStr × Nat) :=
  docs.foldl
    (fun acc d =>
      let cid := choose_document_id (some d.doc_id) (some d.natural_key) d.lang
      if cid.isEmpty then (acc.1, acc.2.1 + 1, acc.2.2)
      else
        (acc.1 ++ [⟨cid, safe_truncate_utf8 d.doc_text (16 * 1024), sanitize_metadata d.meta⟩],
         acc.2.1, acc.2.2 ++ [(cid, d.id)]))
    ([], 0, [])

/-- The external world of one `embed_and_upsert` call: whether the combined
embedding+upsert attempt for sub-batch `i` fails on attempt `a` (0 = first
try, 1 = retry), the text of the exception it raises, and how much wall-clock
time the attempt consumes.  Time is counted in tenths of a second, so
`time.sleep(0.5)` advances the clock by 5. -/
structure ChromaEnv where
  attemptFails : Nat → Nat → Bool
  errMsg : Nat → Nat → PyStr
  attemptDur : Nat → Nat → Nat

/-- State threaded through the `embed_and_upsert` loop.  `attempts` records
every `_try_once()` invocation as `(sub-batch index, attempt number)`; it is
instrumentation for the proofs and corresponds to no source variable. -/
structure EuState where
  now : Nat
  upserted : Nat := 0
  failed : Nat := 0
  errors : List (PyStr × PyStr) := []
  attempts : List (Nat × Nat) := []
deriving DecidableEq

/-- `range(0, len(l), max(1, n))` slicing: split into chunks of `max 1 n`. -/
def chunksOf (n : Nat) : List α → List (List α)
  | [] => []
  | x :: xs => ((x :: xs).take (max 1 n)) :: chunksOf n ((x :: xs).drop (max 1 n))
termination_by l => l.length
decreasing_by all_goals (simp [List.length_drop] <;> omega)

/-- The sub-batch loop of `embed_and_upsert`: per sub-batch, check the
deadline (marking every remaining id `upsert timeout` once exceeded), try the
embedding+upsert once, retry exactly once after `time.sleep(0.5)` on failure,
and on a second failure record every id of the sub-batch with the second
error before moving on. -/
def eu_loop (env : ChromaEnv) (deadline : Nat) :
    List (Nat × List ChromaItem) → EuState → EuState
  | [], st => st
  | (bi, batch) :: rest, st =>
    if deadline < st.now then
      let remIds := ((batch :: rest.map Prod.snd).flatten).map (·.id)
      { st with
        failed := st.failed + remIds.length,
        errors := st.errors ++ remIds.map fun i => (i, "upsert timeout".data) }
    else
      let st1 := { st with
                   attempts := st.attempts ++ [(bi, 0)],
                   now := st.now + env.attemptDur bi 0 }
      if env.attemptFails bi 0 = false then
        eu_loop env deadline rest { st1 with upserted := st1.upserted + batch.length }
      else
        let st2 := { st1 with
                     attempts := st1.attempts ++ [(bi, 1)],
                     now := st1.now + 5 + env.attemptDur bi 1 }
        if env.attemptFails bi 1 = false then
          eu_loop env deadline rest { st2 with upserted := st2.upserted + batch.length }
        else
          eu_loop env deadline rest
            { st2 with
              failed := st2.failed + batch.length,
              errors := st2.errors ++ batch.map fun it => (it.id, env.errMsg bi 1) }

/-- `chroma_client.embed_and_upsert` at start time `now0`: empty input and
dry-run short circuits, `deadline = time.time() + max(1, timeout_s)`, then
the sub-batch loop. -/
def embed_and_upsert (env : ChromaEnv) (items : List ChromaItem)
    (batch_size timeout_s : Nat) (dry_run : Bool) (now0 : Nat) : EuState :=
  if items.isEmpty then { now := now0 }
  else if dry_run then { now := now0, upserted := items.length }
  else
    eu_loop env (now0 + 10 * max 1 timeout_s) ((chunksOf batch_size items).enum)
      { now := now0 }

/-- Step 4 of `ChromaUpsertService.run` after a non-raising
`embed_and_upsert`: normalise error reasons to 400 characters, collect the
failing ids, and write back per-row state — `mark_failed` with the recorded
reason for failing ids, `mark_upserted` otherwise (dict lookups take the last
binding). -/
def run_markback (doc : DocStore) (items : List ChromaItem)
    (idmap : List (PyStr × Nat)) (errs : List (PyStr × PyStr)) : DocStore :=
  let errs400 := errs.map fun e => (e.1, e.2.take 400)
  let failed_ids := ((errs400.filter fun e => !e.1.isEmpty).map (·.1))
  items.foldl
    (fun d it =>
      match (idmap.reverse.find? fun p => p.1 = it.id) with
      | none => d
      | some p =>
        if failed_ids.contains it.id then
          d.mark_failed p.2
            (((errs400.reverse.find? fun e => e.1 = it.id).map (·.2)).getD
              "upsert failed".data)
        else d.mark_upserted p.2)
    doc

/-! ## Theorems -/

/-! ### Shared helper lemmas -/

theorem reFullMatch_chars {p : Char → Bool} {s : PyStr}
    (h : natural_key.reFullMatch p s = true) : ∀ c ∈ s, p c = true ∨ c = '\n' := by
  intro c hc
  unfold natural_key.reFullMatch at h
  rcases Bool.or_eq_true_iff.mp h with h1 | h2
  · exact Or.inl ((List.all_eq_true.mp (Bool.and_eq_true_iff.mp h1).2) c hc)
  · have h2' := Bool.and_eq_true_iff.mp h2
    have hlast := (Bool.and_eq_true_iff.mp h2'.1).1
    have hne := (Bool.and_eq_true_iff.mp h2'.1).2
    have hall := h2'.2
    have hsne : s ≠ [] := by
      intro hs; subst hs; simp at hlast
    have hdecomp := List.dropLast_append_getLast hsne
    have hglast : s.getLast hsne = '\n' := by
      have := List.getLast?_eq_getLast s hsne
      rw [decide_eq_true_eq] at hlast
      rw [this] at hlast
      exact Option.some_injective _ hlast
    rw [← hdecomp] at hc
    rcases List.mem_append.mp hc with hmem | hmem
    · exact Or.inl (List.all_eq_true.mp hall c hmem)
    · right
      rw [List.mem_singleton.mp hmem, hglast]

theorem reFullMatch_no_colon {p : Char → Bool} {s : PyStr}
    (hp : p ':' = false) (h : natural_key.reFullMatch p s = true) :
    hasColon s = false := by
  rw [hasColon, List.any_eq_false]
  intro c hc
  rcases reFullMatch_chars h c hc with h1 | h2
  · simp only [decide_eq_true_eq]
    intro hcolon
    rw [hcolon, hp] at h1
    exact Bool.false_ne_true h1
  · subst h2; decide

/-! ### C8 — natural-key builders -/

set_option maxRecDepth 8192 in
theorem build_field_key_ok_iff (model field_name k : PyStr) :
    natural_key.build_field_key model field_name = .ok k ↔
      (hasDoubleColon (pyLower (pyStrip model)) = false ∧
       hasDoubleColon (pyLower (pyStrip field_name)) = false ∧
       natural_key.reFullMatch natural_key.isModelChar (pyLower (pyStrip model)) = true ∧
       natural_key.reFullMatch natural_key.isFieldChar (pyLower (pyStrip field_name)) = true ∧
       k = "field::".data ++ pyLower (pyStrip model) ++ "::".data ++
             pyLower (pyStrip field_name)) := by
  by_cases h1 : hasDoubleColon (pyLower (pyStrip model)) = true <;>
    by_cases h2 : hasDoubleColon (pyLower (pyStrip field_name)) = true <;>
      by_cases h3 : natural_key.reFullMatch natural_key.isModelChar
          (pyLower (pyStrip model)) = true <;>
        by_cases h4 : natural_key.reFullMatch natural_key.isFieldChar
            (pyLower (pyStrip field_name)) = true <;>
          simp [natural_key.build_field_key, h1, h2, h3, h4,
            Bool.not_eq_true, eq_comm]

set_option maxRecDepth 8192 in
theorem build_view_common_key_ok_iff (axid : PyStr) (tgt : String) (k : PyStr) :
    natural_key.build_view_common_key axid tgt = .ok k ↔
      (hasDoubleColon (pyLower (pyStrip axid)) = false ∧
       natural_key.reFullMatch natural_key.isModelChar (pyLower (pyStrip axid)) = true ∧
       (tgt = "ai_purpose" ∨ tgt = "help") ∧
       k = "view_common::".data ++ pyLower (pyStrip axid) ++ "::".data ++ tgt.data) := by
  by_cases h1 : hasDoubleColon (pyLower (pyStrip axid)) = true <;>
    by_cases h2 : natural_key.reFullMatch natural_key.isModelChar
        (pyLower (pyStrip axid)) = true <;>
      by_cases h3 : tgt = "ai_purpose" <;>
        by_cases h4 : tgt = "help" <;>
          first
            | simp [natural_key.build_view_common_key, h1, h2, h3, h4,
                Bool.not_eq_true, eq_comm]
            | (have e3 : (tgt == "ai_purpose") = false := by simp [h3]
               have e4 : (tgt == "help") = false := by simp [h4]
               simp [natural_key.build_view_common_key, h1, h2, h3, h4, e3, e4,
                 Bool.not_eq_true, eq_comm])

theorem except_error_or_ok (x : Except PyStr PyStr) :
    (∃ e, x = .error e) ∨ (∃ k, x = .ok k) := by
  cases x with
  | error e => exact Or.inl ⟨e, rfl⟩
  | ok k => exact Or.inr ⟨k, rfl⟩

/-- C8: the natural-key builders are pure functions of the lower-cased,
trimmed segments; `build_field_key` succeeds exactly when both normalized
segments pass their pattern checks (which excludes any `::`), the produced
key is exactly `field::<model>::<field_name>` with colon-free segments, a
failure (`ValidationError`) occurs in every other case, and equal normalized
inputs yield equal outcomes; likewise for `build_view_common_key` with the
fixed target set. -/
theorem C8_natural_key_codec (model field_name axid : PyStr) (tgt : String) :
    (∀ k, natural_key.build_field_key model field_name = .ok k →
      k = "field::".data ++ pyLower (pyStrip model) ++ "::".data ++
            pyLower (pyStrip field_name) ∧
        hasColon (pyLower (pyStrip model)) = false ∧
        hasColon (pyLower (pyStrip field_name)) = false) ∧
    ((∃ e, natural_key.build_field_key model field_name = .error e) ↔
      ¬(hasDoubleColon (pyLower (pyStrip model)) = false ∧
        hasDoubleColon (pyLower (pyStrip field_name)) = false ∧
        natural_key.reFullMatch natural_key.isModelChar (pyLower (pyStrip model)) = true ∧
        natural_key.reFullMatch natural_key.isFieldChar
          (pyLower (pyStrip field_name)) = true)) ∧
    (∀ model' field_name',
      pyLower (pyStrip model') = pyLower (pyStrip model) →
      pyLower (pyStrip field_name') = pyLower (pyStrip field_name) →
      (natural_key.build_field_key model' field_name').toOption =
        (natural_key.build_field_key model field_name).toOption) ∧
    (∀ k, natural_key.build_view_common_key axid tgt = .ok k →
      k = "view_common::".data ++ pyLower (pyStrip axid) ++ "::".data ++ tgt.data ∧
        hasColon (pyLower (pyStrip axid)) = false ∧
        (tgt = "ai_purpose" ∨ tgt = "help")) ∧
    ((∃ e, natural_key.build_view_common_key axid tgt = .error e) ↔
      ¬(hasDoubleColon (pyLower (pyStrip axid)) = false ∧
        natural_key.reFullMatch natural_key.isModelChar (pyLower (pyStrip axid)) = true ∧
        (tgt = "ai_purpose" ∨ tgt = "help"))) := by
  have hmc : natural_key.isModelChar ':' = false := by decide
  have hfc : natural_key.isFieldChar ':' = false := by decide
  refine ⟨?_, ?_, ?_, ?_, ?_⟩
  · intro k hk
    have h := (build_field_key_ok_iff model field_name k).mp hk
    exact ⟨h.2.2.2.2, reFullMatch_no_colon hmc h.2.2.1,
      reFullMatch_no_colon hfc h.2.2.2.1⟩
  · constructor
    · rintro ⟨e, he⟩ hcond
      have := (build_field_key_ok_iff model field_name _).mpr
        ⟨hcond.1, hcond.2.1, hcond.2.2.1, hcond.2.2.2, rfl⟩
      rw [he] at this
      exact Except.noConfusion this
    · intro hcond
      rcases except_error_or_ok (natural_key.build_field_key model field_name) with
        ⟨e, he⟩ | ⟨k, hk⟩
      · exact ⟨e, he⟩
      · have h := (build_field_key_ok_iff model field_name k).mp hk
        exact absurd ⟨h.1, h.2.1, h.2.2.1, h.2.2.2.1⟩ hcond
  · intro model' field_name' hm hf
    rcases except_error_or_ok (natural_key.build_field_key model' field_name') with
      ⟨e, he⟩ | ⟨k, hk⟩
    · rcases except_error_or_ok (natural_key.build_field_key model field_name) with
        ⟨e2, he2⟩ | ⟨k2, hk2⟩
      · rw [he, he2]; rfl
      · exfalso
        have h := (build_field_key_ok_iff model field_name k2).mp hk2
        have := (build_field_key_ok_iff model' field_name' _).mpr
          ⟨hm ▸ h.1, hf ▸ h.2.1, hm ▸ h.2.2.1, hf ▸ h.2.2.2.1, by rw [hm, hf]⟩
        rw [he] at this
        exact Except.noConfusion this
    · have h := (build_field_key_ok_iff model' field_name' k).mp hk
      rw [hm, hf] at h
      have hk2 := (build_field_key_ok_iff model field_name k).mpr h
      rw [hk, hk2]
  · intro k hk
    have h := (build_view_common_key_ok_iff axid tgt k).mp hk
    refine ⟨h.2.2.2, reFullMatch_no_colon hmc h.2.1, h.2.2.1⟩
  · constructor
    · rintro ⟨e, he⟩ hcond
      have := (build_view_common_key_ok_iff axid tgt _).mpr
        ⟨hcond.1, hcond.2.1, hcond.2.2, rfl⟩
      rw [he] at this
      exact Except.noConfusion this
    · intro hcond
      rcases except_error_or_ok (natural_key.build_view_common_key axid tgt) with
        ⟨e, he⟩ | ⟨k, hk⟩
      · exact ⟨e, he⟩
      · have h := (build_view_common_key_ok_iff axid tgt k).mp hk
        exact absurd ⟨h.1, h.2.1, h.2.2.1⟩ hcond

/-- Witness for C8 at concrete inputs: `(" Sale.Order ", "Partner_id")` builds
`field::sale.order::partner_id` with colon-free segments. -/
theorem C8_natural_key_codec_witness :
    natural_key.build_field_key " Sale.Order ".data "Partner_id".data =
      .ok "field::sale.order::partner_id".data ∧
    hasColon (pyLower (pyStrip " Sale.Order ".data)) = false := by
  have h := C8_natural_key_codec " Sale.Order ".data "Partner_id".data
    " Base.Action ".data "help"
  have hok : natural_key.build_field_key " Sale.Order ".data "Partner_id".data =
      .ok "field::sale.order::partner_id".data := by decide
  exact ⟨hok, (h.1 _ hok).2.1⟩

/-! ### C3 — pending rows never carry a translation -/

theorem pendingNull_map {rows : List TransRow} {n : Nat}
    (hinv : PendingNull ⟨rows, n⟩) (g : TransRow → TransRow) {n' : Nat}
    (hg : ∀ r ∈ rows, (g r).state = "pending" → (g r).translated_text = none) :
    PendingNull ⟨rows.map g, n'⟩ := by
  intro r' hr'
  rcases List.mem_map.mp hr' with ⟨r, hr, rfl⟩
  exact hg r hr

theorem hashReflects_map {h : PyStr → PyStr} {rows : List TransRow} {n : Nat}
    (hinv : HashReflects h ⟨rows, n⟩) (g : TransRow → TransRow) {n' : Nat}
    (hg : ∀ r ∈ rows, (g r).source_hash = h (g r).source_text) :
    HashReflects h ⟨rows.map g, n'⟩ := by
  intro r' hr'
  rcases List.mem_map.mp hr' with ⟨r, hr, rfl⟩
  exact hg r hr

/-- C3: every write to the Translation Staging Store preserves both
invariants — a `pending` row has NULL `translated_text`, and `source_hash`
reflects `source_text` as last written (given hash-consistent inputs, which
is how every caller computes them).  Moreover the two INSERT paths create the
row as `pending` with NULL `translated_text` and the caller's hash of the new
text, and the two hash-change UPDATE paths reset the row to `pending`,
clear `translated_text`, and write the new text with its matching hash. -/
theorem C3_staging_store_invariants (h : PyStr → PyStr) (st : TransStore)
    (op : TransOp) (hinv : PendingNull st) (hhash : HashReflects h st)
    (hop : op.HashConsistent h) :
    PendingNull (op.apply st) ∧ HashReflects h (op.apply st) ∧
    (∀ e nk model mtable text hsh sl tl,
      op = .insertTranslate e nk model mtable text hsh sl tl →
      ∃ r ∈ (op.apply st).rows, r.natural_key = nk ∧ r.state = "pending" ∧
        r.translated_text = none ∧ r.source_text = text ∧ r.source_hash = h text) ∧
    (∀ e nk sl tl text hsh mode, op = .upsertSource e nk sl tl text hsh mode →
      st.findSource e nk sl tl = none →
      ∃ r ∈ (op.apply st).rows, r.natural_key = nk ∧ r.state = "pending" ∧
        r.translated_text = none ∧ r.source_text = text ∧ r.source_hash = h text) ∧
    (∀ i text hsh, op = .updateIfChanged i text hsh →
      ∀ r ∈ (op.apply st).rows, r.id = i →
        r.state = "pending" ∧ r.translated_text = none ∧
          r.source_text = text ∧ r.source_hash = h text) ∧
    (∀ e nk sl tl text hsh mode row, op = .upsertSource e nk sl tl text hsh mode →
      st.findSource e nk sl tl = some row → mode ≠ "skip_existing" →
      row.source_hash ≠ hsh →
      ∀ r ∈ (op.apply st).rows,
        (r.entity = e ∧ r.natural_key = nk ∧ r.src_lang = sl ∧ r.tgt_lang = tl) →
        r.state = "pending" ∧ r.translated_text = none ∧
          r.source_text = text ∧ r.source_hash = h text) := by
  obtain ⟨rows, n⟩ := st
  refine ⟨?_, ?_, ?_, ?_, ?_, ?_⟩
  · -- PendingNull preservation
    cases op with
    | upsertSource e nk sl tl text hsh mode =>
      simp only [TransOp.apply, TransStore.upsert_source]
      cases hfind : TransStore.findSource ⟨rows, n⟩ e nk sl tl with
      | none =>
        intro r hr
        rcases List.mem_append.mp hr with hr | hr
        · exact hinv r hr
        · intro _
          simp only [List.mem_singleton] at hr
          subst hr; rfl
      | some row =>
        by_cases hm : mode = "skip_existing"
        · simpa [hm] using hinv
        · by_cases hh : row.source_hash = hsh
          · simpa [hm, hh] using hinv
          · simp only [hm, hh, if_neg, if_false]
            refine pendingNull_map hinv _ fun r hr => ?_
            by_cases hc : (r.entity = e && r.natural_key = nk &&
                r.src_lang = sl && r.tgt_lang = tl) = true
            · simp [hc]
            · simp only [Bool.not_eq_true] at hc
              simp only [hc, if_false]
              exact hinv r hr
    | insertTranslate e nk model mtable text hsh sl tl =>
      intro r hr
      simp only [TransOp.apply, TransStore.insert_translate] at hr
      rcases List.mem_append.mp hr with hr | hr
      · exact hinv r hr
      · intro _
        simp only [List.mem_singleton] at hr
        subst hr; rfl
    | updateIfChanged i text hsh =>
      refine pendingNull_map hinv _ fun r hr => ?_
      by_cases hc : r.id = i
      · simp [hc]
      · simp only [if_neg hc]
        exact hinv r hr
    | markTranslated i tt =>
      refine pendingNull_map hinv _ fun r hr => ?_
      by_cases hc : r.id = i
      · simp [hc]
      · simp only [if_neg hc]
        exact hinv r hr
    | markFailed i err =>
      refine pendingNull_map hinv _ fun r hr => ?_
      by_cases hc : r.id = i
      · simp [hc]
      · simp only [if_neg hc]
        exact hinv r hr
    | repoMarkFailed i err =>
      refine pendingNull_map hinv _ fun r hr => ?_
      by_cases hc : r.id = i
      · simp [hc]
      · simp only [if_neg hc]
        exact hinv r hr
    | markReadyForChroma nks =>
      simp only [TransOp.apply, TransStore.mark_ready_for_chroma]
      by_cases hnil : nks = []
      · simpa [hnil] using hinv
      · simp only [hnil, if_false]
        refine pendingNull_map hinv _ fun r hr => ?_
        by_cases hc : (decide (r.natural_key ∈ nks) && r.state = "translated") = true
        · simp only [hc, if_true]
          intro hpend
          exact hinv r hr hpend
        · simp only [Bool.not_eq_true] at hc
          simp only [hc, if_false]
          exact hinv r hr
  · -- HashReflects preservation
    cases op with
    | upsertSource e nk sl tl text hsh mode =>
      simp only [TransOp.HashConsistent] at hop
      simp only [TransOp.apply, TransStore.upsert_source]
      cases hfind : TransStore.findSource ⟨rows, n⟩ e nk sl tl with
      | none =>
        intro r hr
        rcases List.mem_append.mp hr with hr | hr
        · exact hhash r hr
        · simp only [List.mem_singleton] at hr
          subst hr
          simpa using hop
      | some row =>
        by_cases hm : mode = "skip_existing"
        · simpa [hm] using hhash
        · by_cases hh : row.source_hash = hsh
          · simpa [hm, hh] using hhash
          · simp only [hm, hh, if_neg, if_false]
            refine hashReflects_map hhash _ fun r hr => ?_
            by_cases hc : (r.entity = e && r.natural_key = nk &&
                r.src_lang = sl && r.tgt_lang = tl) = true
            · simpa [hc] using hop
            · simp only [Bool.not_eq_true] at hc
              simp only [hc, if_false]
              exact hhash r hr
    | insertTranslate e nk model mtable text hsh sl tl =>
      simp only [TransOp.HashConsistent] at hop
      intro r hr
      simp only [TransOp.apply, TransStore.insert_translate] at hr
      rcases List.mem_append.mp hr with hr | hr
      · exact hhash r hr
      · simp only [List.mem_singleton] at hr
        subst hr
        simpa using hop
    | updateIfChanged i text hsh =>
      simp only [TransOp.HashConsistent] at hop
      refine hashReflects_map hhash _ fun r hr => ?_
      by_cases hc : r.id = i
      · simpa [hc] using hop
      · simp only [if_neg hc]
        exact hhash r hr
    | markTranslated i tt =>
      refine hashReflects_map hhash _ fun r hr => ?_
      by_cases hc : r.id = i
      · simpa [hc] using hhash r hr
      · simp only [if_neg hc]
        exact hhash r hr
    | markFailed i err =>
      refine hashReflects_map hhash _ fun r hr => ?_
      by_cases hc : r.id = i
      · simpa [hc] using hhash r hr
      · simp only [if_neg hc]
        exact hhash r hr
    | repoMarkFailed i err =>
      refine hashReflects_map hhash _ fun r hr => ?_
      by_cases hc : r.id = i
      · simpa [hc] using hhash r hr
      · simp only [if_neg hc]
        exact hhash r hr
    | markReadyForChroma nks =>
      simp only [TransOp.apply, TransStore.mark_ready_for_chroma]
      by_cases hnil : nks = []
      · simpa [hnil] using hhash
      · simp only [hnil, if_false]
        refine hashReflects_map hhash _ fun r hr => ?_
        by_cases hc : (decide (r.natural_key ∈ nks) && r.state = "translated") = true
        · simpa [hc] using hhash r hr
        · simp only [Bool.not_eq_true] at hc
          simp only [hc, if_false]
          exact hhash r hr
  · rintro e nk model mtable text hsh sl tl rfl
    simp only [TransOp.HashConsistent] at hop
    refine ⟨{ id := n, entity := e, natural_key := nk, src_lang := sl,
              tgt_lang := tl, source_text := text, source_hash := hsh,
              translated_text := none, state := "pending", last_error := none,
              model := model, model_table := mtable }, ?_, rfl, rfl, rfl, rfl, hop⟩
    simp [TransOp.apply, TransStore.insert_translate]
  · rintro e nk sl tl text hsh mode rfl hfind
    simp only [TransOp.HashConsistent] at hop
    refine ⟨{ id := n, entity := e, natural_key := nk, src_lang := sl,
              tgt_lang := tl, source_text := text, source_hash := hsh,
              translated_text := none, state := "pending",
              last_error := none }, ?_, rfl, rfl, rfl, rfl, hop⟩
    simp [TransOp.apply, TransStore.upsert_source, hfind]
  · rintro i text hsh rfl r hr hid
    simp only [TransOp.HashConsistent] at hop
    simp only [TransOp.apply, TransStore.update_translate_if_changed,
      TransStore.updateById] at hr
    rcases List.mem_map.mp hr with ⟨r0, hr0, rfl⟩
    by_cases hc : r0.id = i
    · rw [if_pos hc]
      exact ⟨rfl, rfl, rfl, hop ▸ rfl⟩
    · exfalso
      rw [if_neg hc] at hid
      exact hc hid
  · rintro e nk sl tl text hsh mode row rfl hfind hmode hne r hr hkey
    simp only [TransOp.HashConsistent] at hop
    simp only [TransOp.apply, TransStore.upsert_source, hfind] at hr
    rw [if_neg (by simpa using hmode), if_neg (by simpa using hne)] at hr
    simp only at hr
    rcases List.mem_map.mp hr with ⟨r0, hr0, rfl⟩
    by_cases hc : (r0.entity = e && r0.natural_key = nk &&
        r0.src_lang = sl && r0.tgt_lang = tl) = true
    · simp only [hc, if_true]
      simp [hop]
    · exfalso
      simp only [Bool.not_eq_true] at hc
      rw [if_neg (by rw [hc]; simp)] at hkey
      apply absurd hc
      simp [hkey.1, hkey.2.1, hkey.2.2.1, hkey.2.2.2]

/-- Witness for C3: a concrete `insert` of `(pending, NULL)` into the empty
store with the identity digest. -/
theorem C3_staging_store_invariants_witness :
    ∃ r ∈ ((TransOp.insertTranslate "field" "field::a::b".data none none
        "text".data "text".data "ja_JP" "en_US").apply ⟨[], 0⟩).rows,
      r.natural_key = "field::a::b".data ∧ r.state = "pending" ∧
        r.translated_text = none ∧ r.source_text = "text".data ∧
        r.source_hash = (fun s => s) "text".data := by
  have h := C3_staging_store_invariants (fun s => s) ⟨[], 0⟩
    (.insertTranslate "field" "field::a::b".data none none
      "text".data "text".data "ja_JP" "en_US")
    (by intro r hr; simp at hr) (by intro r hr; simp at hr) rfl
  exact h.2.2.1 _ _ _ _ _ _ _ _ rfl

/-! ### C6 — translation runner -/

theorem lookupId_updateById_ne (st : TransStore) (i j : Nat)
    (f : TransRow → TransRow) (hf : ∀ r, (f r).id = r.id) (hne : i ≠ j) :
    (st.updateById j f).lookupId i = st.lookupId i := by
  obtain ⟨rows, n⟩ := st
  simp only [TransStore.updateById, TransStore.lookupId]
  induction rows with
  | nil => rfl
  | cons a rest ih =>
    have he : (if a.id = j then f a else a).id = a.id := by
      by_cases haj : a.id = j
      · rw [if_pos haj]; exact hf a
      · rw [if_neg haj]
    simp only [List.map_cons]
    by_cases hai : a.id = i
    · rw [List.find?_cons_of_pos _ (by rw [decide_eq_true_eq, he]; exact hai),
        List.find?_cons_of_pos _ (by rw [decide_eq_true_eq]; exact hai)]
      have haj : ¬ a.id = j := fun h => hne (hai ▸ h)
      rw [if_neg haj]
    · rw [List.find?_cons_of_neg _ (by rw [decide_eq_true_eq, he]; exact hai),
        List.find?_cons_of_neg _ (by rw [decide_eq_true_eq]; exact hai)]
      exact ih

theorem lookupId_updateById_eq (st : TransStore) (i : Nat)
    (f : TransRow → TransRow) (hf : ∀ r, (f r).id = r.id) (r : TransRow)
    (hfound : st.lookupId i = some r) :
    (st.updateById i f).lookupId i = some (f r) := by
  obtain ⟨rows, n⟩ := st
  simp only [TransStore.updateById, TransStore.lookupId] at *
  induction rows with
  | nil => simp at hfound
  | cons a rest ih =>
    simp only [List.map_cons]
    by_cases hai : a.id = i
    · rw [List.find?_cons_of_pos _ (by simp [hai])] at hfound
      have hra : r = a := (Option.some_inj.mp hfound).symm
      rw [List.find?_cons_of_pos _ (by rw [if_pos hai]; simp [hf a, hai])]
      rw [hra, if_pos hai]
    · rw [List.find?_cons_of_neg _ (by simp [hai])] at hfound
      rw [List.find?_cons_of_neg _ (by rw [if_neg hai]; simp [hai])]
      exact ih hfound

theorem lookupId_mem_nodup (st : TransStore)
    (hnd : (st.rows.map (·.id)).Nodup) (r : TransRow) (hr : r ∈ st.rows) :
    st.lookupId r.id = some r := by
  obtain ⟨rows, n⟩ := st
  simp only [TransStore.lookupId] at *
  induction rows with
  | nil => simp at hr
  | cons a rest ih =>
    simp only [List.map_cons, List.nodup_cons] at hnd
    rcases List.mem_cons.mp hr with rfl | hr
    · rw [List.find?_cons_of_pos _ (by simp)]
    · have hne : ¬ a.id = r.id := by
        intro he
        exact hnd.1 (he ▸ List.mem_map.mpr ⟨r, hr, rfl⟩)
      rw [List.find?_cons_of_neg _ (by simp [hne])]
      exact ih hnd.2 hr

/-- Behaviour of the `run_translate` loop: counts accumulate one outcome per
row, each picked row ends in the state dictated by its own provider outcome,
and rows outside the picked set are untouched. -/
theorem run_translate_loop_spec (provider : Nat → PyStr → Except PyStr PyStr) :
    ∀ (rows : List TransRow) (i0 : Nat) (st : TransStore) (res : TranslateRunRes),
    (∀ r ∈ rows, st.lookupId r.id = some r) →
    (rows.map (·.id)).Nodup →
    (run_translate_loop provider rows i0 st res).2.picked = res.picked ∧
    (run_translate_loop provider rows i0 st res).2.translated +
        (run_translate_loop provider rows i0 st res).2.failed =
      res.translated + res.failed + rows.length ∧
    (∀ j (hj : j < rows.length),
      match provider (i0 + j) (trim2000 (rows.get ⟨j, hj⟩).source_text) with
      | .ok tt =>
        (run_translate_loop provider rows i0 st res).1.lookupId (rows.get ⟨j, hj⟩).id =
          some { rows.get ⟨j, hj⟩ with
                 translated_text := some tt, state := "translated",
                 last_error := none }
      | .error e =>
        (run_translate_loop provider rows i0 st res).1.lookupId (rows.get ⟨j, hj⟩).id =
          some { rows.get ⟨j, hj⟩ with
                 state := "failed", last_error := some (e.take 300) }) ∧
    (∀ k, (∀ r ∈ rows, r.id ≠ k) →
      (run_translate_loop provider rows i0 st res).1.lookupId k = st.lookupId k) := by
  intro rows
  induction rows with
  | nil =>
    intro i0 st res _ _
    refine ⟨rfl, by simp [run_translate_loop], ?_, fun k _ => rfl⟩
    intro j hj
    exact absurd hj (by simp)
  | cons r rest ih =>
    intro i0 st res hmem hnd
    simp only [List.map_cons, List.nodup_cons] at hnd
    have hrid : ∀ r' ∈ rest, r'.id ≠ r.id := by
      intro r' hr' he
      exact hnd.1 (he ▸ List.mem_map.mpr ⟨r', hr', rfl⟩)
    cases hp : provider i0 (trim2000 r.source_text) with
    | ok tt =>
      have hstep : run_translate_loop provider (r :: rest) i0 st res =
          run_translate_loop provider rest (i0 + 1) (st.mark_translated r.id tt)
            { res with
              translated := res.translated + 1,
              samples := if res.samples.length < 5 then
                  res.samples ++ [(r.natural_key, "translated")] else res.samples } := by
        simp [run_translate_loop, hp]
      set st1 := st.mark_translated r.id tt with hst1
      have hid1 : ∀ r' : TransRow, ((fun r0 : TransRow =>
          { r0 with translated_text := some tt, state := "translated",
                    last_error := none }) r').id = r'.id := fun _ => rfl
      have hmem1 : ∀ r' ∈ rest, st1.lookupId r'.id = some r' := by
        intro r' hr'
        rw [hst1, TransStore.mark_translated,
          lookupId_updateById_ne st r'.id r.id _ hid1 (hrid r' hr')]
        exact hmem r' (List.mem_cons_of_mem _ hr')
      have h := ih (i0 + 1) st1
        { res with
          translated := res.translated + 1,
          samples := if res.samples.length < 5 then
              res.samples ++ [(r.natural_key, "translated")] else res.samples }
        hmem1 hnd.2
      rw [hstep]
      refine ⟨h.1, ?_, ?_, ?_⟩
      · rw [h.2.1]; simp; omega
      · intro j hj
        match j, hj with
        | 0, _ =>
          have hunt := h.2.2.2 r.id hrid
          simp only [List.get, Nat.add_zero, hp]
          rw [hunt, hst1, TransStore.mark_translated,
            lookupId_updateById_eq st r.id _ hid1 r
              (hmem r (List.mem_cons_self r rest))]
        | j + 1, hj =>
          have := h.2.2.1 j (by simpa using Nat.lt_of_succ_lt_succ hj)
          simpa [Nat.add_right_comm i0 1 j, Nat.add_assoc] using this
      · intro k hk
        rw [h.2.2.2 k fun r' hr' => hk r' (List.mem_cons_of_mem _ hr'), hst1,
          TransStore.mark_translated,
          lookupId_updateById_ne st k r.id _ hid1
            (fun he => hk r (List.mem_cons_self r rest) he.symm)]
    | error e =>
      have hstep : run_translate_loop provider (r :: rest) i0 st res =
          run_translate_loop provider rest (i0 + 1) (st.mark_failed r.id e)
            { res with
              failed := res.failed + 1,
              samples := if res.samples.length < 5 then
                  res.samples ++ [(r.natural_key, "failed")] else res.samples } := by
        simp [run_translate_loop, hp]
      set st1 := st.mark_failed r.id e with hst1
      have hid1 : ∀ r' : TransRow, ((fun r0 : TransRow =>
          { r0 with state := "failed",
                    last_error := some (e.take 300) }) r').id = r'.id := fun _ => rfl
      have hmem1 : ∀ r' ∈ rest, st1.lookupId r'.id = some r' := by
        intro r' hr'
        rw [hst1, TransStore.mark_failed,
          lookupId_updateById_ne st r'.id r.id _ hid1 (hrid r' hr')]
        exact hmem r' (List.mem_cons_of_mem _ hr')
      have h := ih (i0 + 1) st1
        { res with
          failed := res.failed + 1,
          samples := if res.samples.length < 5 then
              res.samples ++ [(r.natural_key, "failed")] else res.samples }
        hmem1 hnd.2
      rw [hstep]
      refine ⟨h.1, ?_, ?_, ?_⟩
      · rw [h.2.1]; simp; omega
      · intro j hj
        match j, hj with
        | 0, _ =>
          have hunt := h.2.2.2 r.id hrid
          simp only [List.get, Nat.add_zero, hp]
          rw [hunt, hst1, TransStore.mark_failed,
            lookupId_updateById_eq st r.id _ hid1 r
              (hmem r (List.mem_cons_self r rest))]
        | j + 1, hj =>
          have := h.2.2.1 j (by simpa using Nat.lt_of_succ_lt_succ hj)
          simpa [Nat.add_right_comm i0 1 j, Nat.add_assoc] using this
      · intro k hk
        rw [h.2.2.2 k fun r' hr' => hk r' (List.mem_cons_of_mem _ hr'), hst1,
          TransStore.mark_failed,
          lookupId_updateById_ne st k r.id _ hid1
            (fun he => hk r (List.mem_cons_self r rest) he.symm)]

theorem pick_pending_sub (st : TransStore) (limit : Nat)
    (entities : Option (List String)) (sl tl : String) :
    ∀ r ∈ st.pick_pending limit entities sl tl, r ∈ st.rows := by
  intro r hr
  exact List.Sublist.mem hr
    (List.Sublist.trans (List.take_sublist _ _) (List.filter_sublist _))

/-- C6: in a translation run over a store with distinct row ids, each picked
pending row ends either `translated` with the provider result stored and
`last_error` cleared, or `failed` with `last_error` truncated to at most 300
characters; one row's provider exception does not disturb any other row; and
the counts satisfy `picked = translated + failed`. -/
theorem C6_translate_row_outcomes (provider : Nat → PyStr → Except PyStr PyStr)
    (st : TransStore) (limit : Nat) (entities : Option (List String))
    (sl tl : String) (hnd : (st.rows.map (·.id)).Nodup) :
    (run_translate provider st limit entities sl tl).2.picked =
        (st.pick_pending limit entities sl tl).length ∧
    (run_translate provider st limit entities sl tl).2.picked =
      (run_translate provider st limit entities sl tl).2.translated +
        (run_translate provider st limit entities sl tl).2.failed ∧
    (∀ j (hj : j < (st.pick_pending limit entities sl tl).length),
      match provider j
          (trim2000 ((st.pick_pending limit entities sl tl).get ⟨j, hj⟩).source_text) with
      | .ok tt =>
        (run_translate provider st limit entities sl tl).1.lookupId
            ((st.pick_pending limit entities sl tl).get ⟨j, hj⟩).id =
          some { (st.pick_pending limit entities sl tl).get ⟨j, hj⟩ with
                 translated_text := some tt, state := "translated",
                 last_error := none }
      | .error e =>
        (run_translate provider st limit entities sl tl).1.lookupId
            ((st.pick_pending limit entities sl tl).get ⟨j, hj⟩).id =
          some { (st.pick_pending limit entities sl tl).get ⟨j, hj⟩ with
                 state := "failed", last_error := some (e.take 300) } ∧
        (e.take 300).length ≤ 300) ∧
    (∀ k, (∀ r ∈ st.pick_pending limit entities sl tl, r.id ≠ k) →
      (run_translate provider st limit entities sl tl).1.lookupId k =
        st.lookupId k) := by
  have hsub := pick_pending_sub st limit entities sl tl
  have hmem : ∀ r ∈ st.pick_pending limit entities sl tl,
      st.lookupId r.id = some r :=
    fun r hr => lookupId_mem_nodup st hnd r (hsub r hr)
  have hndp : ((st.pick_pending limit entities sl tl).map (·.id)).Nodup := by
    refine List.Sublist.nodup (List.Sublist.map _ ?_) hnd
    exact List.Sublist.trans (List.take_sublist _ _) (List.filter_sublist _)
  have h := run_translate_loop_spec provider (st.pick_pending limit entities sl tl)
    0 st { picked := (st.pick_pending limit entities sl tl).length } hmem hndp
  simp only [run_translate]
  refine ⟨h.1, ?_, ?_, h.2.2.2⟩
  · rw [h.1, h.2.1]
    simp
  · intro j hj
    have hthis := h.2.2.1 j hj
    simp only [Nat.zero_add] at hthis
    cases hp : provider j
        (trim2000 ((st.pick_pending limit entities sl tl).get ⟨j, hj⟩).source_text) with
    | ok tt =>
      rw [hp] at hthis
      exact hthis
    | error e =>
      rw [hp] at hthis
      exact ⟨hthis, List.length_take_le _ _⟩

/-- Witness for C6: a one-row pending store and a failing provider; the row
ends `failed` and `picked = translated + failed = 1`. -/
theorem C6_translate_row_outcomes_witness :
    ((run_translate (fun _ _ => .error "boom".data)
        ⟨[{ id := 1, entity := "field", natural_key := "field::a::b".data,
            src_lang := "ja_JP", tgt_lang := "en_US", source_text := "テスト".data,
            source_hash := "h".data, translated_text := none, state := "pending",
            last_error := none }], 2⟩ 10 none "ja_JP" "en_US").2.picked = 1) ∧
    ((run_translate (fun _ _ => .error "boom".data)
        ⟨[{ id := 1, entity := "field", natural_key := "field::a::b".data,
            src_lang := "ja_JP", tgt_lang := "en_US", source_text := "テスト".data,
            source_hash := "h".data, translated_text := none, state := "pending",
            last_error := none }], 2⟩ 10 none "ja_JP" "en_US").2.failed = 1) := by
  have h := C6_translate_row_outcomes (fun _ _ => .error "boom".data)
    ⟨[{ id := 1, entity := "field", natural_key := "field::a::b".data,
        src_lang := "ja_JP", tgt_lang := "en_US", source_text := "テスト".data,
        source_hash := "h".data, translated_text := none, state := "pending",
        last_error := none }], 2⟩ 10 none "ja_JP" "en_US" (by decide)
  refine ⟨?_, by decide⟩
  rw [h.1]
  decide

/-! ### C1 — idempotent packaging (spec-modelled `PortalChromaDocRepo.upsert`) -/

theorem upsert_skip_of_same_hash (doc : DocStore) (e : String) (nk : PyStr)
    (lang : String) (dt : PyStr) (meta : MetaDict) (hsh : PyStr) (coll : PyStr)
    (row : DocRow) (hfind : doc.findDoc e nk lang = some row)
    (hh : row.source_hash = some hsh) :
    doc.upsert e nk lang dt meta hsh coll = (("skipped_no_change", row.doc_id), doc) := by
  simp [DocStore.upsert, hfind, hh]

theorem upsert_requeues_on_change (doc : DocStore) (e : String) (nk : PyStr)
    (lang : String) (dt : PyStr) (meta : MetaDict) (hsh : PyStr) (coll : PyStr)
    (row : DocRow) (hfind : doc.findDoc e nk lang = some row)
    (hh : row.source_hash ≠ some hsh) :
    (doc.upsert e nk lang dt meta hsh coll).1.1 = "queued" ∧
    (∀ r ∈ (doc.upsert e nk lang dt meta hsh coll).2.rows,
      (r.entity = e ∧ r.natural_key = nk ∧ r.lang = lang) →
      r.state = "queued" ∧ r.last_error = none ∧
        r.source_hash = some hsh ∧ r.doc_text = dt) ∧
    (∀ r ∈ (doc.upsert e nk lang dt meta hsh coll).2.rows,
      ¬(r.entity = e ∧ r.natural_key = nk ∧ r.lang = lang) → r ∈ doc.rows) := by
  refine ⟨by simp [DocStore.upsert, hfind, hh], ?_, ?_⟩
  · intro r hr hkey
    simp only [DocStore.upsert, hfind, hh, if_neg, if_false] at hr
    rcases List.mem_map.mp hr with ⟨r0, hr0, rfl⟩
    by_cases hc : (r0.entity = e && r0.natural_key = nk && r0.lang = lang) = true
    · simp [hc]
    · exfalso
      rw [if_neg hc] at hkey
      apply hc
      simp [hkey.1, hkey.2.1, hkey.2.2]
  · intro r hr hkey
    simp only [DocStore.upsert, hfind, hh, if_neg, if_false] at hr
    rcases List.mem_map.mp hr with ⟨r0, hr0, rfl⟩
    by_cases hc : (r0.entity = e && r0.natural_key = nk && r0.lang = lang) = true
    · exfalso
      rw [if_pos hc] at hkey
      simp only [Bool.and_eq_true, decide_eq_true_eq] at hc
      exact hkey ⟨hc.1.1, hc.1.2, hc.2⟩
    · rw [if_neg hc]
      exact hr0

theorem addSample_queued (a : PackAcc) (n : Nat) (s : PackSample) :
    (a.addSample n s).queued = a.queued := by
  unfold PackAcc.addSample; split <;> rfl

theorem addSample_ready (a : PackAcc) (n : Nat) (s : PackSample) :
    (a.addSample n s).ready_nks = a.ready_nks := by
  unfold PackAcc.addSample; split <;> rfl

theorem addSample_doc (a : PackAcc) (n : Nat) (s : PackSample) :
    (a.addSample n s).doc = a.doc := by
  unfold PackAcc.addSample; split <;> rfl

theorem addSample_snc (a : PackAcc) (n : Nat) (s : PackSample) :
    (a.addSample n s).skipped_no_change = a.skipped_no_change := by
  unfold PackAcc.addSample; split <;> rfl

/-- C1: re-packaging against an unchanged stored `source_hash` reports
`skipped_no_change` and performs no write; a changed hash rewrites the
existing vector-document row — whatever its previous state, including
`upserted` — back to `queued` with `last_error` cleared and the new hash
stored, leaving all other rows untouched.  At the `pack` loop level (field
branch), the no-change outcome only bumps the `skipped_no_change` counter and
adds nothing to the ready list, while a change bumps `queued`, appends the
natural key to the ready list and leaves the key's stored row `queued` with
`last_error` cleared.  The repository-level upsert is modelled from the spec
because `PackService.pack` calls `PortalChromaDocRepo.upsert`, which is
absent from the source tree. -/
theorem C1_idempotent_packaging (doc : DocStore) (e : String) (nk : PyStr)
    (lang : String) (dt : PyStr) (meta : MetaDict) (hsh : PyStr) (coll : PyStr)
    (row : DocRow) (hfind : doc.findDoc e nk lang = some row) :
    (row.source_hash = some hsh →
      doc.upsert e nk lang dt meta hsh coll = (("skipped_no_change", row.doc_id), doc)) ∧
    (row.source_hash ≠ some hsh →
      (doc.upsert e nk lang dt meta hsh coll).1.1 = "queued" ∧
      (∀ r ∈ (doc.upsert e nk lang dt meta hsh coll).2.rows,
        (r.entity = e ∧ r.natural_key = nk ∧ r.lang = lang) →
        r.state = "queued" ∧ r.last_error = none ∧
          r.source_hash = some hsh ∧ r.doc_text = dt) ∧
      (∀ r ∈ (doc.upsert e nk lang dt meta hsh coll).2.rows,
        ¬(r.entity = e ∧ r.natural_key = nk ∧ r.lang = lang) → r ∈ doc.rows)) ∧
    (∀ (env : PackEnv) (lang' : String) (textLimit samplesMax : Nat)
       (fieldColl vcColl : PyStr) (acc : PackAcc) (r : TransRow)
       (pre model field_name : PyStr) (m : FieldMeta) (row' : DocRow),
      r.entity = "field" →
      splitNk3 r.natural_key = some (pre, model, field_name) →
      env.fieldMeta (pyLower (pyStrip model)) (pyLower (pyStrip field_name)) = some m →
      acc.doc.findDoc "field" r.natural_key lang' = some row' →
      (row'.source_hash = some (packFieldHash env m) →
        pack_row env lang' textLimit samplesMax fieldColl vcColl acc r =
          { acc with skipped_no_change := acc.skipped_no_change + 1 }) ∧
      (row'.source_hash ≠ some (packFieldHash env m) →
        (pack_row env lang' textLimit samplesMax fieldColl vcColl acc r).queued =
            acc.queued + 1 ∧
        (pack_row env lang' textLimit samplesMax fieldColl vcColl acc r).ready_nks =
            acc.ready_nks ++ [r.natural_key] ∧
        (∀ rr ∈ (pack_row env lang' textLimit samplesMax fieldColl vcColl acc r).doc.rows,
          (rr.entity = "field" ∧ rr.natural_key = r.natural_key ∧ rr.lang = lang') →
          rr.state = "queued" ∧ rr.last_error = none ∧
            rr.source_hash = some (packFieldHash env m)))) := by
  refine ⟨fun hh => upsert_skip_of_same_hash doc e nk lang dt meta hsh coll row hfind hh,
    fun hh => upsert_requeues_on_change doc e nk lang dt meta hsh coll row hfind hh, ?_⟩
  intro env lang' textLimit samplesMax fieldColl vcColl acc r pre model field_name m
    row' hre hsplit hmeta hfind'
  constructor
  · intro hh
    simp only [pack_row, hre, hsplit, hmeta, if_true, eq_self_iff_true]
    rw [upsert_skip_of_same_hash acc.doc "field" r.natural_key lang' _ _ _ _ row'
      hfind' hh]
    simp
  · intro hh
    have hB := upsert_requeues_on_change acc.doc "field" r.natural_key lang'
      (pack_truncate textLimit
        (render_field_doc (norm_label ((dictGet m.label_i18n "ja").getD []))
          model field_name (m.model_table.getD [])
          (orFalsy m.ttype "char".data)
          (if (orFalsy m.jp_datatype []).isEmpty then
             env.jpDatatype (orFalsy m.ttype "char".data) else orFalsy m.jp_datatype [])
          (norm_help env.unescape (m.notes.getD []))))
      [("entity", some "field".data), ("natural_key", some r.natural_key),
       ("lang", some lang'.data), ("model", some model),
       ("model_table", m.model_table), ("field_name", some field_name),
       ("ttype", some (orFalsy m.ttype "char".data)),
       ("collection", some fieldColl),
       ("label_ja", some (norm_label ((dictGet m.label_i18n "ja").getD []))),
       ("notes_ja", some (norm_help env.unescape (m.notes.getD []))),
       ("source_row_updated_at", m.updated_at)]
      (packFieldHash env m) fieldColl row' hfind' hh
    have hres : (acc.doc.upsert "field" r.natural_key lang' _ _
        (packFieldHash env m) fieldColl).1.1 = "queued" := hB.1
    simp only [pack_row, hre, hsplit, hmeta, if_true, eq_self_iff_true]
    rw [if_neg (by rw [hres]; decide)]
    refine ⟨?_, ?_, ?_⟩
    · rw [addSample_queued]
    · rw [addSample_ready]
    · intro rr hrr hkey
      rw [addSample_doc] at hrr
      exact ⟨(hB.2.1 rr hrr hkey).1, (hB.2.1 rr hrr hkey).2.1,
        (hB.2.1 rr hrr hkey).2.2.1⟩

/-- Witness for C1: a stored vector-document row in state `upserted` with
hash `H1`; re-packaging with the same hash is the identity and reports
`skipped_no_change`. -/
theorem C1_idempotent_packaging_witness :
    DocStore.upsert
        ⟨[{ id := 1, doc_id := "d1".data, entity := "field",
            natural_key := "field::a::b".data, lang := "en",
            collection := "c".data, model := none, doc_text := "t".data,
            meta := [], source_hash := some "H1".data, state := "upserted",
            last_error := some "old".data }], 2⟩
        "field" "field::a::b".data "en" "t2".data [] "H1".data "c".data =
      (("skipped_no_change", "d1".data),
        ⟨[{ id := 1, doc_id := "d1".data, entity := "field",
            natural_key := "field::a::b".data, lang := "en",
            collection := "c".data, model := none, doc_text := "t".data,
            meta := [], source_hash := some "H1".data, state := "upserted",
            last_error := some "old".data }], 2⟩) := by
  have h := C1_idempotent_packaging
    ⟨[{ id := 1, doc_id := "d1".data, entity := "field",
        natural_key := "field::a::b".data, lang := "en",
        collection := "c".data, model := none, doc_text := "t".data,
        meta := [], source_hash := some "H1".data, state := "upserted",
        last_error := some "old".data }], 2⟩
    "field" "field::a::b".data "en" "t2".data [] "H1".data "c".data
    { id := 1, doc_id := "d1".data, entity := "field",
      natural_key := "field::a::b".data, lang := "en",
      collection := "c".data, model := none, doc_text := "t".data,
      meta := [], source_hash := some "H1".data, state := "upserted",
      last_error := some "old".data }
    (by decide)
  exact h.1 rfl

/-! ### C2 — post-packaging promotion of staging rows -/

/-- C2 (evidence of a code bug): a packaging run whose single field row
succeeds (`queued = 1`, its natural key in the ready list) leaves that
Translation Staging Row in state `translated` — `mark_ready_for_chroma` only
clears `last_error` and touches `updated_at`; it never writes
`state = 'ready_for_chroma'`, contradicting the repository's own header
comment and the function's name. -/
theorem C2_mark_ready_never_sets_state :
    (pack
        { sha256 := fun s => s, unescape := fun s => s,
          fieldMeta := fun m f =>
            if m = "m".data ∧ f = "f".data then
              some { label_i18n := [("ja", "ラベル".data)], notes := none,
                     ttype := some "char".data, jp_datatype := some "文字列".data,
                     model_table := some "tbl".data, updated_at := none }
            else none,
          vcMeta := fun _ => none, jpDatatype := fun _ => "文字列".data }
        ⟨[{ id := 1, entity := "field", natural_key := "field::m::f".data,
            src_lang := "ja_JP", tgt_lang := "en_US", source_text := "x".data,
            source_hash := "h".data, translated_text := some "tx".data,
            state := "translated", last_error := some "old error".data }], 2⟩
        ⟨[], 0⟩ ["field"] "en" none none 100 10000 5
        "collf".data "collv".data).2.2.queued = 1 ∧
    (pack
        { sha256 := fun s => s, unescape := fun s => s,
          fieldMeta := fun m f =>
            if m = "m".data ∧ f = "f".data then
              some { label_i18n := [("ja", "ラベル".data)], notes := none,
                     ttype := some "char".data, jp_datatype := some "文字列".data,
                     model_table := some "tbl".data, updated_at := none }
            else none,
          vcMeta := fun _ => none, jpDatatype := fun _ => "文字列".data }
        ⟨[{ id := 1, entity := "field", natural_key := "field::m::f".data,
            src_lang := "ja_JP", tgt_lang := "en_US", source_text := "x".data,
            source_hash := "h".data, translated_text := some "tx".data,
            state := "translated", last_error := some "old error".data }], 2⟩
        ⟨[], 0⟩ ["field"] "en" none none 100 10000 5
        "collf".data "collv".data).2.2.ready_nks = ["field::m::f".data] ∧
    (pack
        { sha256 := fun s => s, unescape := fun s => s,
          fieldMeta := fun m f =>
            if m = "m".data ∧ f = "f".data then
              some { label_i18n := [("ja", "ラベル".data)], notes := none,
                     ttype := some "char".data, jp_datatype := some "文字列".data,
                     model_table := some "tbl".data, updated_at := none }
            else none,
          vcMeta := fun _ => none, jpDatatype := fun _ => "文字列".data }
        ⟨[{ id := 1, entity := "field", natural_key := "field::m::f".data,
            src_lang := "ja_JP", tgt_lang := "en_US", source_text := "x".data,
            source_hash := "h".data, translated_text := some "tx".data,
            state := "translated", last_error := some "old error".data }], 2⟩
        ⟨[], 0⟩ ["field"] "en" none none 100 10000 5
        "collf".data "collv".data).1.rows.map (fun r => (r.state, r.last_error)) =
      [("translated", none)] := by
  refine ⟨?_, ?_, ?_⟩ <;> decide

/-! ### C9 — extraction skip ordering -/

/-- C9 (counterexample): a source field row whose label payload has an `en`
value but whose normalized source text is empty is recorded as
`skipped_no_ja`, not `skipped_has_en` — the empty-source check runs first in
`services/extract.extract_field`, so the claimed ordering is false. -/
theorem C9_counterexample :
    has_en [("en", "Partner".data)] none = true ∧
    (extract_field_row (fun s => s) "upsert_if_changed" ⟨[], 0⟩ {}
        { model := "sale.order".data, model_table := none,
          field_name := "partner_id".data,
          label_i18n := [("en", "Partner".data)], notes := [] }).2.1.skipped_has_en
      = 0 ∧
    (extract_field_row (fun s => s) "upsert_if_changed" ⟨[], 0⟩ {}
        { model := "sale.order".data, model_table := none,
          field_name := "partner_id".data,
          label_i18n := [("en", "Partner".data)], notes := [] }).2.1.skipped_no_ja
      = 1 ∧
    (extract_field_row (fun s => s) "upsert_if_changed" ⟨[], 0⟩ {}
        { model := "sale.order".data, model_table := none,
          field_name := "partner_id".data,
          label_i18n := [("en", "Partner".data)], notes := [] }).2.1.details =
      [("field::sale.order::partner_id".data, "no_ja")] := by
  refine ⟨?_, ?_, ?_, ?_⟩ <;> decide

/-- C9 (amended): the empty-normalized-source skip is applied first.  A field
row with a target-language value and non-empty normalized source text is
recorded as `skipped_has_en` with no write; a row with empty normalized
source text is recorded as `skipped_no_ja` — with no write — even when an
`en`/`en_US` value exists. -/
theorem C9_skip_order_amended (sha256 : PyStr → PyStr) (mode : String)
    (st : TransStore) (res : ExtractRes) (r : FieldSrcRow) :
    ((fieldSrcText r).isEmpty = false → has_en r.label_i18n none = true →
      extract_field_row sha256 mode st res r =
        (st, { res with
               skipped_has_en := res.skipped_has_en + 1,
               details := res.details ++ [(fieldNk r, "has_en")] }, 0)) ∧
    ((fieldSrcText r).isEmpty = true →
      extract_field_row sha256 mode st res r =
        (st, { res with
               skipped_no_ja := res.skipped_no_ja + 1,
               details := res.details ++ [(fieldNk r, "no_ja")] }, 0)) := by
  constructor
  · intro hne hen
    simp [extract_field_row, hne, hen]
  · intro he
    simp [extract_field_row, he]

/-- Witness for C9 (amended): a row with both a `ja` and an `en` label is
`skipped_has_en`; a row with only an `en` label is `skipped_no_ja`. -/
theorem C9_skip_order_amended_witness :
    extract_field_row (fun s => s) "upsert_if_changed" ⟨[], 0⟩ {}
        { model := "m".data, model_table := none, field_name := "f".data,
          label_i18n := [("ja", "ラベル".data), ("en", "Label".data)],
          notes := [] } =
      (⟨[], 0⟩, { skipped_has_en := 1,
                  details := [("field::m::f".data, "has_en")] }, 0) := by
  have h := C9_skip_order_amended (fun s => s) "upsert_if_changed" ⟨[], 0⟩ {}
    { model := "m".data, model_table := none, field_name := "f".data,
      label_i18n := [("ja", "ラベル".data), ("en", "Label".data)], notes := [] }
  have := h.1 (by decide) (by decide)
  rw [this]
  decide

/-! ### C10 — document-id derivation and skipping of blank ids -/

theorem build_items_go (docs : List DocRow) :
    ∀ (items0 : List ChromaItem) (sk0 : Nat) (idm0 : List (PyStr × Nat)),
    docs.foldl
      (fun acc d =>
        let cid := choose_document_id (some d.doc_id) (some d.natural_key) d.lang
        if cid.isEmpty then (acc.1, acc.2.1 + 1, acc.2.2)
        else
          (acc.1 ++ [⟨cid, safe_truncate_utf8 d.doc_text (16 * 1024),
              sanitize_metadata d.meta⟩],
           acc.2.1, acc.2.2 ++ [(cid, d.id)]))
      (items0, sk0, idm0) =
    (items0 ++ docs.filterMap (fun d =>
        let cid := choose_document_id (some d.doc_id) (some d.natural_key) d.lang
        if cid.isEmpty then none
        else some ⟨cid, safe_truncate_utf8 d.doc_text (16 * 1024),
          sanitize_metadata d.meta⟩),
     sk0 + (docs.filter (fun d =>
        (choose_document_id (some d.doc_id) (some d.natural_key) d.lang).isEmpty)).length,
     idm0 ++ docs.filterMap (fun d =>
        let cid := choose_document_id (some d.doc_id) (some d.natural_key) d.lang
        if cid.isEmpty then none else some (cid, d.id))) := by
  induction docs with
  | nil => intro items0 sk0 idm0; simp
  | cons d rest ih =>
    intro items0 sk0 idm0
    by_cases hc : (choose_document_id (some d.doc_id) (some d.natural_key) d.lang).isEmpty
    · simp only [List.foldl_cons, List.filterMap_cons, List.filter_cons, hc, if_true,
        List.length_cons]
      rw [ih]
      simp [hc]
      omega
    · simp only [List.foldl_cons, List.filterMap_cons, List.filter_cons,
        Bool.not_eq_true] at *
      rw [ih]
      simp [hc]

/-- C10: the id sent to the vector store is the stored `doc_id` when
non-blank, otherwise the natural key; a base containing `::` (even a
caller-supplied `entity::key` doc id) is suffixed with `::<lang>` and hence
never used verbatim, any other base is used as-is; and rows whose derived id
is blank are counted as `skipped` and excluded from the batch (so no
external call ever sees them), the batch keeping exactly the non-blank-id
rows. -/
theorem C10_document_id_rule (doc_id natural_key : Option PyStr) (lang : String)
    (docs : List DocRow) :
    ((pyStrip (doc_id.getD [])).isEmpty = false →
      choose_document_id doc_id natural_key lang =
        (if hasDoubleColon (pyStrip (doc_id.getD [])) then
          pyStrip (doc_id.getD []) ++ "::".data ++ lang.data
         else pyStrip (doc_id.getD []))) ∧
    ((pyStrip (doc_id.getD [])).isEmpty = true →
      choose_document_id doc_id natural_key lang =
        (if (pyStrip (natural_key.getD [])).isEmpty then []
         else if hasDoubleColon (pyStrip (natural_key.getD [])) then
           pyStrip (natural_key.getD []) ++ "::".data ++ lang.data
         else pyStrip (natural_key.getD []))) ∧
    (hasDoubleColon (pyStrip (doc_id.getD [])) = true →
      choose_document_id doc_id natural_key lang ≠ pyStrip (doc_id.getD [])) ∧
    ((build_items docs).1 = docs.filterMap (fun d =>
        let cid := choose_document_id (some d.doc_id) (some d.natural_key) d.lang
        if cid.isEmpty then none
        else some ⟨cid, safe_truncate_utf8 d.doc_text (16 * 1024),
          sanitize_metadata d.meta⟩) ∧
     (build_items docs).2.1 = (docs.filter (fun d =>
        (choose_document_id (some d.doc_id) (some d.natural_key) d.lang).isEmpty)).length ∧
     ∀ it ∈ (build_items docs).1, it.id ≠ []) := by
  have h1 : (pyStrip (doc_id.getD [])).isEmpty = false →
      choose_document_id doc_id natural_key lang =
        (if hasDoubleColon (pyStrip (doc_id.getD [])) then
          pyStrip (doc_id.getD []) ++ "::".data ++ lang.data
         else pyStrip (doc_id.getD [])) := by
    intro hne
    simp [choose_document_id, hne]
  refine ⟨h1, ?_, ?_, ?_⟩
  · intro he
    simp only [choose_document_id, he, if_true]
  · intro hdc heq
    have hne : (pyStrip (doc_id.getD [])).isEmpty = false := by
      cases h : pyStrip (doc_id.getD []) with
      | nil => rw [h] at hdc; exact absurd hdc (by decide)
      | cons a l => rfl
    rw [h1 hne, if_pos hdc] at heq
    have hlen := congrArg List.length heq
    simp [List.length_append] at hlen
  · have h := build_items_go docs [] 0 []
    refine ⟨?_, ?_, ?_⟩
    · simp only [build_items]
      rw [h]
      simp
    · simp only [build_items]
      rw [h]
      simp
    · intro it hit
      simp only [build_items] at hit
      rw [h] at hit
      simp only [List.nil_append] at hit
      rcases List.mem_filterMap.mp hit with ⟨d, _, hd⟩
      by_cases hc : (choose_document_id (some d.doc_id) (some d.natural_key) d.lang).isEmpty
      · simp [hc] at hd
      · simp only [hc, Bool.false_eq_true, if_false, Option.some_inj] at hd
        intro hnil
        have hid : it.id =
            choose_document_id (some d.doc_id) (some d.natural_key) d.lang := by
          rw [← hd]
        apply hc
        rw [← hid, hnil]
        rfl

/-- Witness for C10: a caller-supplied `entity::key` doc id is
language-qualified, and a row with blank `doc_id` and blank natural key is
skipped while a well-formed row stays in the batch. -/
theorem C10_document_id_rule_witness :
    choose_document_id (some "field::a::b".data) (some "nk".data) "en" =
      "field::a::b::en".data ∧
    (build_items
        [{ id := 7, doc_id := " ".data, entity := "field", natural_key := [],
           lang := "en", collection := "c".data, model := none,
           doc_text := "t".data, meta := [], source_hash := none,
           state := "queued", last_error := none },
         { id := 8, doc_id := "d8".data, entity := "field",
           natural_key := "nk".data, lang := "en", collection := "c".data,
           model := none, doc_text := "t".data, meta := [], source_hash := none,
           state := "queued", last_error := none }]).2.1 = 1 := by
  have h := C10_document_id_rule (some "field::a::b".data) (some "nk".data) "en"
    [{ id := 7, doc_id := " ".data, entity := "field", natural_key := [],
       lang := "en", collection := "c".data, model := none,
       doc_text := "t".data, meta := [], source_hash := none,
       state := "queued", last_error := none },
     { id := 8, doc_id := "d8".data, entity := "field",
       natural_key := "nk".data, lang := "en", collection := "c".data,
       model := none, doc_text := "t".data, meta := [], source_hash := none,
       state := "queued", last_error := none }]
  refine ⟨?_, ?_⟩
  · rw [h.1 (by decide)]
    decide
  · rw [h.2.2.2.2.1]
    decide

/-! ### C5 — retry-once-then-fail at sub-batch granularity -/

theorem chunksOf_flatten (n : Nat) {α : Type} : ∀ (l : List α),
    (chunksOf n l).flatten = l := by
  have key : ∀ (k : Nat) (l : List α), l.length ≤ k → (chunksOf n l).flatten = l := by
    intro k
    induction k with
    | zero =>
      intro l hl
      cases l with
      | nil => simp [chunksOf]
      | cons x xs => simp at hl
    | succ k ih =>
      intro l hl
      cases l with
      | nil => simp [chunksOf]
      | cons x xs =>
        simp only [chunksOf, List.flatten_cons]
        rw [ih ((x :: xs).drop (max 1 n)) ?_, List.take_append_drop]
        have h1 : 1 ≤ max 1 n := le_max_left 1 n
        simp only [List.length_drop, List.length_cons]
        simp only [List.length_cons] at hl
        omega
  intro l
  exact key l.length l le_rfl

/-- Per-step characterisation of the `embed_and_upsert` loop under
instantaneous attempts and a clock that never passes the deadline: every
sub-batch gets one attempt, plus exactly one retry when the first attempt
fails; a doubly-failed sub-batch contributes one `(id, second error)` record
per item; and every item ends counted as upserted or failed. -/
theorem eu_loop_char (env : ChromaEnv) (deadline : Nat)
    (hdur : ∀ j a, env.attemptDur j a = 0) :
    ∀ (batches : List (Nat × List ChromaItem)) (st : EuState),
    st.now + 5 * batches.length ≤ deadline + 5 →
    (eu_loop env deadline batches st).attempts =
        st.attempts ++ batches.flatMap (fun jb =>
          if env.attemptFails jb.1 0 = false then [(jb.1, 0)]
          else [(jb.1, 0), (jb.1, 1)]) ∧
    (eu_loop env deadline batches st).errors =
        st.errors ++ batches.flatMap (fun jb =>
          if env.attemptFails jb.1 0 = false then []
          else if env.attemptFails jb.1 1 = false then []
          else jb.2.map fun it => (it.id, env.errMsg jb.1 1)) ∧
    (eu_loop env deadline batches st).upserted +
        (eu_loop env deadline batches st).failed =
      st.upserted + st.failed + (batches.map (fun jb => jb.2.length)).sum := by
  intro batches
  induction batches with
  | nil =>
    intro st _
    refine ⟨by simp [eu_loop], by simp [eu_loop], by simp [eu_loop]⟩
  | cons jb rest ih =>
    intro st hbud
    obtain ⟨bi, batch⟩ := jb
    have hnow : ¬ deadline < st.now := by
      simp only [List.length_cons] at hbud
      omega
    by_cases hf0 : env.attemptFails bi 0 = false
    · have hstep : eu_loop env deadline ((bi, batch) :: rest) st =
          eu_loop env deadline rest
            { now := st.now + env.attemptDur bi 0,
              upserted := st.upserted + batch.length, failed := st.failed,
              errors := st.errors, attempts := st.attempts ++ [(bi, 0)] } := by
        simp only [eu_loop]
        rw [if_neg hnow, if_pos hf0]
      rw [hstep]
      have h := ih
        { now := st.now + env.attemptDur bi 0,
          upserted := st.upserted + batch.length, failed := st.failed,
          errors := st.errors, attempts := st.attempts ++ [(bi, 0)] }
        (by
          show st.now + env.attemptDur bi 0 + 5 * rest.length ≤ deadline + 5
          simp only [hdur]
          simp only [List.length_cons] at hbud
          omega)
      refine ⟨?_, ?_, ?_⟩
      · rw [h.1]
        simp [hf0, List.flatMap_cons]
      · rw [h.2.1]
        simp [hf0, List.flatMap_cons]
      · rw [h.2.2]
        simp
        omega
    · by_cases hf1 : env.attemptFails bi 1 = false
      · have hstep : eu_loop env deadline ((bi, batch) :: rest) st =
            eu_loop env deadline rest
              { now := st.now + env.attemptDur bi 0 + 5 + env.attemptDur bi 1,
                upserted := st.upserted + batch.length, failed := st.failed,
                errors := st.errors,
                attempts := st.attempts ++ [(bi, 0)] ++ [(bi, 1)] } := by
          simp only [eu_loop]
          rw [if_neg hnow, if_neg hf0, if_pos hf1]
        rw [hstep]
        have h := ih
          { now := st.now + env.attemptDur bi 0 + 5 + env.attemptDur bi 1,
            upserted := st.upserted + batch.length, failed := st.failed,
            errors := st.errors, attempts := st.attempts ++ [(bi, 0)] ++ [(bi, 1)] }
          (by
            show st.now + env.attemptDur bi 0 + 5 + env.attemptDur bi 1 +
              5 * rest.length ≤ deadline + 5
            simp only [hdur]
            simp only [List.length_cons] at hbud
            omega)
        refine ⟨?_, ?_, ?_⟩
        · rw [h.1]
          simp [hf0, hf1, List.flatMap_cons]
        · rw [h.2.1]
          simp [hf0, hf1, List.flatMap_cons]
        · rw [h.2.2]
          simp
          omega
      · have hstep : eu_loop env deadline ((bi, batch) :: rest) st =
            eu_loop env deadline rest
              { now := st.now + env.attemptDur bi 0 + 5 + env.attemptDur bi 1,
                upserted := st.upserted,
                failed := st.failed + batch.length,
                errors := st.errors ++ batch.map (fun it => (it.id, env.errMsg bi 1)),
                attempts := st.attempts ++ [(bi, 0)] ++ [(bi, 1)] } := by
          simp only [eu_loop]
          rw [if_neg hnow, if_neg hf0, if_neg hf1]
        rw [hstep]
        have h := ih
          { now := st.now + env.attemptDur bi 0 + 5 + env.attemptDur bi 1,
            upserted := st.upserted, failed := st.failed + batch.length,
            errors := st.errors ++ batch.map (fun it => (it.id, env.errMsg bi 1)),
            attempts := st.attempts ++ [(bi, 0)] ++ [(bi, 1)] }
          (by
            show st.now + env.attemptDur bi 0 + 5 + env.attemptDur bi 1 +
              5 * rest.length ≤ deadline + 5
            simp only [hdur]
            simp only [List.length_cons] at hbud
            omega)
        refine ⟨?_, ?_, ?_⟩
        · rw [h.1]
          simp [hf0, hf1, List.flatMap_cons]
        · rw [h.2.1]
          simp [hf0, hf1, List.flatMap_cons]
        · rw [h.2.2]
          simp
          omega

/-- C5: under instantaneous attempts and a wall-clock budget that covers all
sub-batches, `embed_and_upsert` attempts a failing sub-batch exactly twice
(one retry) and a succeeding one exactly once; when both attempts of a
sub-batch fail, every id of that sub-batch is recorded with the retry's
error reason (these records are exactly what the run loop marks `failed`),
and all other sub-batches contribute their own outcomes — one failing
sub-batch never aborts the run, so `upserted + failed` covers every item. -/
theorem C5_retry_once_then_fail (env : ChromaEnv) (items : List ChromaItem)
    (batch_size timeout_s now0 : Nat)
    (hdur : ∀ j a, env.attemptDur j a = 0)
    (hne : items.isEmpty = false)
    (hbud : 5 * (chunksOf batch_size items).length ≤ 10 * max 1 timeout_s) :
    (embed_and_upsert env items batch_size timeout_s false now0).attempts =
        ((chunksOf batch_size items).enum).flatMap (fun jb =>
          if env.attemptFails jb.1 0 = false then [(jb.1, 0)]
          else [(jb.1, 0), (jb.1, 1)]) ∧
    (embed_and_upsert env items batch_size timeout_s false now0).errors =
        ((chunksOf batch_size items).enum).flatMap (fun jb =>
          if env.attemptFails jb.1 0 = false then []
          else if env.attemptFails jb.1 1 = false then []
          else jb.2.map fun it => (it.id, env.errMsg jb.1 1)) ∧
    (∀ jb ∈ (chunksOf batch_size items).enum,
      env.attemptFails jb.1 0 = true → env.attemptFails jb.1 1 = true →
      ∀ it ∈ jb.2,
        (it.id, env.errMsg jb.1 1) ∈
          (embed_and_upsert env items batch_size timeout_s false now0).errors) ∧
    (embed_and_upsert env items batch_size timeout_s false now0).upserted +
        (embed_and_upsert env items batch_size timeout_s false now0).failed =
      items.length := by
  have hloop := eu_loop_char env (now0 + 10 * max 1 timeout_s) hdur
    ((chunksOf batch_size items).enum) { now := now0 }
    (by
      show now0 + 5 * (chunksOf batch_size items).enum.length ≤
        now0 + 10 * max 1 timeout_s + 5
      rw [List.enum_length]
      omega)
  have hdef : embed_and_upsert env items batch_size timeout_s false now0 =
      eu_loop env (now0 + 10 * max 1 timeout_s)
        ((chunksOf batch_size items).enum) { now := now0 } := by
    simp only [embed_and_upsert]
    rw [if_neg (by rw [hne]; decide), if_neg (by decide)]
  rw [hdef]
  refine ⟨by rw [hloop.1]; rfl, by rw [hloop.2.1]; rfl, ?_, ?_⟩
  · intro jb hjb hb0 hb1 it hit
    rw [hloop.2.1]
    refine List.mem_append.mpr (Or.inr ?_)
    apply List.mem_flatMap.mpr
    refine ⟨jb, hjb, ?_⟩
    rw [if_neg (by rw [hb0]; decide), if_neg (by rw [hb1]; decide)]
    exact List.mem_map.mpr ⟨it, hit, rfl⟩
  · rw [hloop.2.2]
    show 0 + 0 + (((chunksOf batch_size items).enum).map
      (fun jb => jb.2.length)).sum = items.length
    have hsnd : ((chunksOf batch_size items).enum).map (fun jb => jb.2.length) =
        (chunksOf batch_size items).map List.length := by
      rw [show (fun jb : Nat × List ChromaItem => jb.2.length) =
        (List.length ∘ Prod.snd) from rfl, ← List.map_map, List.enum_map_snd]
    rw [hsnd, ← List.length_flatten, chunksOf_flatten]
    omega

/-- Witness for C5: three items in sub-batches of two where batch 0 fails
both attempts and batch 1 succeeds: two attempts for batch 0, one for
batch 1, both ids of batch 0 recorded with the retry error, and
`upserted + failed = 3`. -/
theorem C5_retry_once_then_fail_witness :
    (embed_and_upsert
        { attemptFails := fun j _ => j == 0,
          errMsg := fun _ a => if a = 1 then "second failure".data else "first".data,
          attemptDur := fun _ _ => 0 }
        [⟨"a".data, "t".data, []⟩, ⟨"b".data, "t".data, []⟩, ⟨"c".data, "t".data, []⟩]
        2 10 false 0).attempts = [(0, 0), (0, 1), (1, 0)] ∧
    (embed_and_upsert
        { attemptFails := fun j _ => j == 0,
          errMsg := fun _ a => if a = 1 then "second failure".data else "first".data,
          attemptDur := fun _ _ => 0 }
        [⟨"a".data, "t".data, []⟩, ⟨"b".data, "t".data, []⟩, ⟨"c".data, "t".data, []⟩]
        2 10 false 0).errors =
      [("a".data, "second failure".data), ("b".data, "second failure".data)] ∧
    (embed_and_upsert
        { attemptFails := fun j _ => j == 0,
          errMsg := fun _ a => if a = 1 then "second failure".data else "first".data,
          attemptDur := fun _ _ => 0 }
        [⟨"a".data, "t".data, []⟩, ⟨"b".data, "t".data, []⟩, ⟨"c".data, "t".data, []⟩]
        2 10 false 0).upserted +
      (embed_and_upsert
        { attemptFails := fun j _ => j == 0,
          errMsg := fun _ a => if a = 1 then "second failure".data else "first".data,
          attemptDur := fun _ _ => 0 }
        [⟨"a".data, "t".data, []⟩, ⟨"b".data, "t".data, []⟩, ⟨"c".data, "t".data, []⟩]
        2 10 false 0).failed = 3 := by
  have hc : chunksOf 2
      [(⟨"a".data, "t".data, []⟩ : ChromaItem), ⟨"b".data, "t".data, []⟩,
        ⟨"c".data, "t".data, []⟩] =
      [[⟨"a".data, "t".data, []⟩, ⟨"b".data, "t".data, []⟩],
        [⟨"c".data, "t".data, []⟩]] := by
    simp [chunksOf]
  have h := C5_retry_once_then_fail
    { attemptFails := fun j _ => j == 0,
      errMsg := fun _ a => if a = 1 then "second failure".data else "first".data,
      attemptDur := fun _ _ => 0 }
    [⟨"a".data, "t".data, []⟩, ⟨"b".data, "t".data, []⟩, ⟨"c".data, "t".data, []⟩]
    2 10 0 (fun _ _ => rfl) (by decide) (by rw [hc]; decide)
  refine ⟨?_, ?_, ?_⟩
  · rw [h.1, hc]; decide
  · rw [h.2.1, hc]; decide
  · rw [h.2.2.2]
    rfl

/-! ### C4 — idempotent extraction -/

theorem find_append_none {α : Type} (p : α → Bool) :
    ∀ (l₁ l₂ : List α), l₁.find? p = none → (l₁ ++ l₂).find? p = l₂.find? p := by
  intro l₁
  induction l₁ with
  | nil => intro l₂ _; rfl
  | cons a t ih =>
    intro l₂ h
    by_cases hp : p a = true
    · rw [List.find?_cons_of_pos _ hp] at h
      exact absurd h (by simp)
    · rw [List.find?_cons_of_neg _ hp] at h
      rw [List.cons_append, List.find?_cons_of_neg _ hp]
      exact ih l₂ h

theorem find_append_some {α : Type} (p : α → Bool) :
    ∀ (l₁ l₂ : List α) (e : α), l₁.find? p = some e → (l₁ ++ l₂).find? p = some e := by
  intro l₁
  induction l₁ with
  | nil => intro l₂ e h; exact absurd h (by simp)
  | cons a t ih =>
    intro l₂ e h
    by_cases hp : p a = true
    · rw [List.find?_cons_of_pos _ hp] at h
      rw [List.cons_append, List.find?_cons_of_pos _ hp]
      exact h
    · rw [List.find?_cons_of_neg _ hp] at h
      rw [List.cons_append, List.find?_cons_of_neg _ hp]
      exact ih l₂ e h

theorem extract_field_go_cons (sha256 : PyStr → PyStr) (mode : String)
    (r : FieldSrcRow) (rs : List FieldSrcRow) (st : TransStore) (res : ExtractRes)
    (w : Nat) :
    extract_field_go sha256 mode (r :: rs) (st, res, w) =
      extract_field_go sha256 mode rs
        ((extract_field_row sha256 mode st res r).1,
         (extract_field_row sha256 mode st res r).2.1,
         w + (extract_field_row sha256 mode st res r).2.2) := by
  simp only [extract_field_go, List.foldl_cons]

/-- A first `upsert_if_changed` extraction run over rows with pairwise
distinct natural keys, starting from a store containing none of those keys:
pre-existing rows under other keys are untouched, and afterwards every
non-skipped fetched row has a staging row under its key whose `source_hash`
is the digest of its normalized source text. -/
theorem extract_go_fresh_inserts (sha256 : PyStr → PyStr) :
    ∀ (rows : List FieldSrcRow) (st : TransStore) (res : ExtractRes) (w : Nat),
    (rows.map fieldNk).Nodup →
    (∀ r ∈ rows, (fieldSrcText r).isEmpty = false →
      has_en r.label_i18n none = false →
      st.findSource "field" (fieldNk r) "ja_JP" "en_US" = none) →
    (∀ (key : PyStr) (e : TransRow), key ∉ rows.map fieldNk →
      st.findSource "field" key "ja_JP" "en_US" = some e →
      (extract_field_go sha256 "upsert_if_changed" rows (st, res, w)).1.findSource
        "field" key "ja_JP" "en_US" = some e) ∧
    (∀ r ∈ rows, (fieldSrcText r).isEmpty = false →
      has_en r.label_i18n none = false →
      ∃ e, (extract_field_go sha256 "upsert_if_changed" rows
          (st, res, w)).1.findSource "field" (fieldNk r) "ja_JP" "en_US" = some e ∧
        e.source_hash = sha256 (fieldSrcText r)) := by
  intro rows
  induction rows with
  | nil =>
    intro st res w _ _
    exact ⟨fun key e _ h => h, fun r hr => absurd hr (List.not_mem_nil r)⟩
  | cons r0 rs ih =>
    intro st res w hnd hfresh
    rw [List.map_cons] at hnd
    obtain ⟨hnotin, hnd2⟩ := List.nodup_cons.mp hnd
    by_cases hsrc : (fieldSrcText r0).isEmpty = true
    · have hrow : extract_field_row sha256 "upsert_if_changed" st res r0 =
          (st, { res with
                 skipped_no_ja := res.skipped_no_ja + 1,
                 details := res.details ++ [(fieldNk r0, "no_ja")] }, 0) := by
        simp [extract_field_row, hsrc]
      have ih2 := ih st
        { res with
          skipped_no_ja := res.skipped_no_ja + 1,
          details := res.details ++ [(fieldNk r0, "no_ja")] } (w + 0) hnd2
        (fun r hr h1 h2 => hfresh r (List.mem_cons_of_mem _ hr) h1 h2)
      refine ⟨?_, ?_⟩
      · intro key e hkey hfind
        have hkey2 : key ∉ rs.map fieldNk := fun hk =>
          hkey (by rw [List.map_cons]; exact List.mem_cons_of_mem _ hk)
        rw [extract_field_go_cons, hrow]
        exact ih2.1 key e hkey2 hfind
      · intro r hr h1 h2
        rcases List.mem_cons.mp hr with hr0 | hr2
        · subst hr0
          rw [hsrc] at h1
          exact Bool.noConfusion h1
        · rw [extract_field_go_cons, hrow]
          exact ih2.2 r hr2 h1 h2
    · have hsrc0 : (fieldSrcText r0).isEmpty = false := by
        rwa [Bool.not_eq_true] at hsrc
      by_cases hen : has_en r0.label_i18n none = true
      · have hrow : extract_field_row sha256 "upsert_if_changed" st res r0 =
            (st, { res with
                   skipped_has_en := res.skipped_has_en + 1,
                   details := res.details ++ [(fieldNk r0, "has_en")] }, 0) := by
          simp [extract_field_row, hsrc0, hen]
        have ih2 := ih st
          { res with
            skipped_has_en := res.skipped_has_en + 1,
            details := res.details ++ [(fieldNk r0, "has_en")] } (w + 0) hnd2
          (fun r hr h1 h2 => hfresh r (List.mem_cons_of_mem _ hr) h1 h2)
        refine ⟨?_, ?_⟩
        · intro key e hkey hfind
          have hkey2 : key ∉ rs.map fieldNk := fun hk =>
            hkey (by rw [List.map_cons]; exact List.mem_cons_of_mem _ hk)
          rw [extract_field_go_cons, hrow]
          exact ih2.1 key e hkey2 hfind
        · intro r hr h1 h2
          rcases List.mem_cons.mp hr with hr0 | hr2
          · subst hr0
            rw [hen] at h2
            exact Bool.noConfusion h2
          · rw [extract_field_go_cons, hrow]
            exact ih2.2 r hr2 h1 h2
      · have hen0 : has_en r0.label_i18n none = false := by
          rwa [Bool.not_eq_true] at hen
        have hfind0 : st.findSource "field" (fieldNk r0) "ja_JP" "en_US" = none :=
          hfresh r0 (List.mem_cons_self r0 rs) hsrc0 hen0
        have hrow : extract_field_row sha256 "upsert_if_changed" st res r0 =
            (st.insert_translate "field" (fieldNk r0) r0.model r0.model_table
              (fieldSrcText r0) (sha256 (fieldSrcText r0)) "ja_JP" "en_US",
             { res with picked := res.picked + 1, inserted := res.inserted + 1 },
             1) := by
          simp [extract_field_row, hsrc0, hen0, hfind0]
        have hfind1 : (st.insert_translate "field" (fieldNk r0) r0.model r0.model_table
              (fieldSrcText r0) (sha256 (fieldSrcText r0)) "ja_JP"
              "en_US").findSource "field" (fieldNk r0) "ja_JP" "en_US" =
            some { id := st.nextId, entity := "field", natural_key := fieldNk r0,
                   src_lang := "ja_JP", tgt_lang := "en_US",
                   source_text := fieldSrcText r0,
                   source_hash := sha256 (fieldSrcText r0),
                   translated_text := none, state := "pending",
                   last_error := none, model := r0.model,
                   model_table := r0.model_table } := by
          simp only [TransStore.findSource] at hfind0
          simp only [TransStore.findSource, TransStore.insert_translate]
          rw [find_append_none _ _ _ hfind0]
          rw [List.find?_cons_of_pos _ (by simp)]
        have hfreshTail : ∀ r ∈ rs, (fieldSrcText r).isEmpty = false →
            has_en r.label_i18n none = false →
            (st.insert_translate "field" (fieldNk r0) r0.model r0.model_table
              (fieldSrcText r0) (sha256 (fieldSrcText r0)) "ja_JP"
              "en_US").findSource "field" (fieldNk r) "ja_JP" "en_US" = none := by
          intro r hr h1 h2
          have h0 := hfresh r (List.mem_cons_of_mem _ hr) h1 h2
          have hne : fieldNk r0 ≠ fieldNk r := fun he =>
            hnotin (by rw [he]; exact List.mem_map_of_mem fieldNk hr)
          simp only [TransStore.findSource] at h0
          simp only [TransStore.findSource, TransStore.insert_translate]
          rw [find_append_none _ _ _ h0]
          rw [List.find?_cons_of_neg _ (by simp [hne]), List.find?_nil]
        have ih2 := ih (st.insert_translate "field" (fieldNk r0) r0.model
            r0.model_table (fieldSrcText r0) (sha256 (fieldSrcText r0)) "ja_JP"
            "en_US")
          { res with picked := res.picked + 1, inserted := res.inserted + 1 }
          (w + 1) hnd2 hfreshTail
        refine ⟨?_, ?_⟩
        · intro key e hkey hfind
          have hkey2 : key ∉ rs.map fieldNk := fun hk =>
            hkey (by rw [List.map_cons]; exact List.mem_cons_of_mem _ hk)
          rw [extract_field_go_cons, hrow]
          apply ih2.1 key e hkey2
          simp only [TransStore.findSource] at hfind
          simp only [TransStore.findSource, TransStore.insert_translate]
          exact find_append_some _ _ _ _ hfind
        · intro r hr h1 h2
          rcases List.mem_cons.mp hr with hr0 | hr2
          · rw [hr0]
            rw [extract_field_go_cons, hrow]
            refine ⟨{ id := st.nextId, entity := "field",
                      natural_key := fieldNk r0, src_lang := "ja_JP",
                      tgt_lang := "en_US", source_text := fieldSrcText r0,
                      source_hash := sha256 (fieldSrcText r0),
                      translated_text := none, state := "pending",
                      last_error := none, model := r0.model,
                      model_table := r0.model_table }, ?_, rfl⟩
            exact ih2.1 _ _ hnotin hfind1
          · rw [extract_field_go_cons, hrow]
            exact ih2.2 r hr2 h1 h2

/-- A second `upsert_if_changed` extraction run over a store that already
holds, for every non-skipped row, a staging row under its key with the
matching digest: the store comes back unchanged, no INSERT/UPDATE runs, and
every non-skipped row is recorded with detail `no_change`. -/
theorem extract_go_second_run (sha256 : PyStr → PyStr) :
    ∀ (rows : List FieldSrcRow) (st : TransStore) (res : ExtractRes) (w : Nat),
    (∀ r ∈ rows, (fieldSrcText r).isEmpty = false →
      has_en r.label_i18n none = false →
      ∃ e, st.findSource "field" (fieldNk r) "ja_JP" "en_US" = some e ∧
        e.source_hash = sha256 (fieldSrcText r)) →
    ∃ res2 : ExtractRes,
      extract_field_go sha256 "upsert_if_changed" rows (st, res, w) =
        (st, res2, w) ∧
      res2.inserted = res.inserted ∧ res2.updated = res.updated ∧
      res2.details = res.details ++ rows.flatMap (fun r =>
        if (fieldSrcText r).isEmpty then [(fieldNk r, "no_ja")]
        else if has_en r.label_i18n none then [(fieldNk r, "has_en")]
        else [(fieldNk r, "no_change")]) := by
  intro rows
  induction rows with
  | nil =>
    intro st res w _
    exact ⟨res, rfl, rfl, rfl, by simp⟩
  | cons r0 rs ih =>
    intro st res w hex
    by_cases hsrc : (fieldSrcText r0).isEmpty = true
    · have hrow : extract_field_row sha256 "upsert_if_changed" st res r0 =
          (st, { res with
                 skipped_no_ja := res.skipped_no_ja + 1,
                 details := res.details ++ [(fieldNk r0, "no_ja")] }, 0) := by
        simp [extract_field_row, hsrc]
      obtain ⟨res2, heq, hins, hupd, hdet⟩ := ih st
        { res with
          skipped_no_ja := res.skipped_no_ja + 1,
          details := res.details ++ [(fieldNk r0, "no_ja")] } (w + 0)
        (fun r hr h1 h2 => hex r (List.mem_cons_of_mem _ hr) h1 h2)
      have hsrc2 : fieldSrcText r0 = [] := by simpa using hsrc
      refine ⟨res2, ?_, hins, hupd, ?_⟩
      · rw [extract_field_go_cons, hrow]
        exact heq
      · rw [hdet]
        simp [hsrc2, List.append_assoc]
    · have hsrc0 : (fieldSrcText r0).isEmpty = false := by
        rwa [Bool.not_eq_true] at hsrc
      by_cases hen : has_en r0.label_i18n none = true
      · have hrow : extract_field_row sha256 "upsert_if_changed" st res r0 =
            (st, { res with
                   skipped_has_en := res.skipped_has_en + 1,
                   details := res.details ++ [(fieldNk r0, "has_en")] }, 0) := by
          simp [extract_field_row, hsrc0, hen]
        obtain ⟨res2, heq, hins, hupd, hdet⟩ := ih st
          { res with
            skipped_has_en := res.skipped_has_en + 1,
            details := res.details ++ [(fieldNk r0, "has_en")] } (w + 0)
          (fun r hr h1 h2 => hex r (List.mem_cons_of_mem _ hr) h1 h2)
        have hsrc2 : ¬(fieldSrcText r0 = []) := by simpa using hsrc0
        refine ⟨res2, ?_, hins, hupd, ?_⟩
        · rw [extract_field_go_cons, hrow]
          exact heq
        · rw [hdet]
          simp [hsrc2, hen, List.append_assoc]
      · have hen0 : has_en r0.label_i18n none = false := by
          rwa [Bool.not_eq_true] at hen
        obtain ⟨e, hfind, hhash⟩ := hex r0 (List.mem_cons_self r0 rs) hsrc0 hen0
        have hrow : extract_field_row sha256 "upsert_if_changed" st res r0 =
            (st, { res with
                   picked := res.picked + 1,
                   details := res.details ++ [(fieldNk r0, "no_change")] }, 0) := by
          simp [extract_field_row, hsrc0, hen0, hfind, hhash]
        obtain ⟨res2, heq, hins, hupd, hdet⟩ := ih st
          { res with
            picked := res.picked + 1,
            details := res.details ++ [(fieldNk r0, "no_change")] } (w + 0)
          (fun r hr h1 h2 => hex r (List.mem_cons_of_mem _ hr) h1 h2)
        have hsrc2 : ¬(fieldSrcText r0 = []) := by simpa using hsrc0
        refine ⟨res2, ?_, hins, hupd, ?_⟩
        · rw [extract_field_go_cons, hrow]
          exact heq
        · rw [hdet]
          simp [hsrc2, hen0, List.append_assoc]

/-- C4: counterexample to the spelled outcome.  Extracting the same single
field row twice (mode `upsert_if_changed`): the second run performs zero
writes and finds the stored hash unchanged, but it records the detail
`no_change` — no outcome of the run is ever the spec string
`skipped_no_change`. -/
theorem C4_counterexample :
    (extract_field (fun s => s) "upsert_if_changed"
        [{ model := "m".data, model_table := none, field_name := "f".data,
           label_i18n := [("ja", "abc".data)], notes := [] }]
        (extract_field (fun s => s) "upsert_if_changed"
          [{ model := "m".data, model_table := none, field_name := "f".data,
             label_i18n := [("ja", "abc".data)], notes := [] }] ⟨[], 0⟩).1).2.2
      = 0 ∧
    (extract_field (fun s => s) "upsert_if_changed"
        [{ model := "m".data, model_table := none, field_name := "f".data,
           label_i18n := [("ja", "abc".data)], notes := [] }]
        (extract_field (fun s => s) "upsert_if_changed"
          [{ model := "m".data, model_table := none, field_name := "f".data,
             label_i18n := [("ja", "abc".data)], notes := [] }] ⟨[], 0⟩).1).2.1.details
      = [("field::m::f".data, "no_change")] ∧
    ∀ d ∈ (extract_field (fun s => s) "upsert_if_changed"
        [{ model := "m".data, model_table := none, field_name := "f".data,
           label_i18n := [("ja", "abc".data)], notes := [] }]
        (extract_field (fun s => s) "upsert_if_changed"
          [{ model := "m".data, model_table := none, field_name := "f".data,
             label_i18n := [("ja", "abc".data)], notes := [] }] ⟨[], 0⟩).1).2.1.details,
      d.2 ≠ "skipped_no_change" := by
  refine ⟨?_, ?_, ?_⟩ <;> decide

/-- C4 (amended): extraction with mode `upsert_if_changed` is idempotent —
re-running over unchanged source rows (with pairwise distinct natural keys)
performs zero additional writes, leaves the staging store unchanged, inserts
and updates nothing, and records detail `no_change` for every non-skipped
row; the literal outcome `skipped_no_change` is produced only by the
repository primitive `upsert_source` on an unchanged hash, which the wired
extraction service does not call. -/
theorem C4_extraction_idempotent_amended (sha256 : PyStr → PyStr)
    (rows : List FieldSrcRow) (hnd : (rows.map fieldNk).Nodup) :
    (extract_field sha256 "upsert_if_changed" rows
        (extract_field sha256 "upsert_if_changed" rows ⟨[], 0⟩).1).1 =
      (extract_field sha256 "upsert_if_changed" rows ⟨[], 0⟩).1 ∧
    (extract_field sha256 "upsert_if_changed" rows
        (extract_field sha256 "upsert_if_changed" rows ⟨[], 0⟩).1).2.2 = 0 ∧
    (extract_field sha256 "upsert_if_changed" rows
        (extract_field sha256 "upsert_if_changed" rows ⟨[], 0⟩).1).2.1.inserted
      = 0 ∧
    (extract_field sha256 "upsert_if_changed" rows
        (extract_field sha256 "upsert_if_changed" rows ⟨[], 0⟩).1).2.1.updated
      = 0 ∧
    (extract_field sha256 "upsert_if_changed" rows
        (extract_field sha256 "upsert_if_changed" rows ⟨[], 0⟩).1).2.1.details =
      rows.flatMap (fun r =>
        if (fieldSrcText r).isEmpty then [(fieldNk r, "no_ja")]
        else if has_en r.label_i18n none then [(fieldNk r, "has_en")]
        else [(fieldNk r, "no_change")]) ∧
    (∀ (st : TransStore) (entity : String) (nk : PyStr) (sl tl : String)
      (txt h : PyStr) (row : TransRow),
      st.findSource entity nk sl tl = some row → row.source_hash = h →
      TransStore.upsert_source st entity nk sl tl txt h "upsert_if_changed" =
        ("skipped_no_change", st)) := by
  have hrun1 := extract_go_fresh_inserts sha256 rows ⟨[], 0⟩ {} 0 hnd
    (fun r _ _ _ => rfl)
  have hconv1 : extract_field sha256 "upsert_if_changed" rows ⟨[], 0⟩ =
      extract_field_go sha256 "upsert_if_changed" rows (⟨[], 0⟩, {}, 0) := rfl
  obtain ⟨res2, heq, hins, hupd, hdet⟩ := extract_go_second_run sha256 rows
    (extract_field sha256 "upsert_if_changed" rows ⟨[], 0⟩).1 {} 0
    (by
      intro r hr h1 h2
      rw [hconv1]
      exact hrun1.2 r hr h1 h2)
  have hconv2 : extract_field sha256 "upsert_if_changed" rows
      (extract_field sha256 "upsert_if_changed" rows ⟨[], 0⟩).1 =
      extract_field_go sha256 "upsert_if_changed" rows
        ((extract_field sha256 "upsert_if_changed" rows ⟨[], 0⟩).1, {}, 0) := rfl
  refine ⟨?_, ?_, ?_, ?_, ?_, ?_⟩
  · rw [hconv2, heq]
  · rw [hconv2, heq]
  · rw [hconv2, heq]
    exact hins
  · rw [hconv2, heq]
    exact hupd
  · rw [hconv2, heq]
    exact hdet
  · intro st entity nk sl tl txt h row hfind hh
    simp only [TransStore.upsert_source, hfind]
    rw [if_neg (by decide), if_pos hh]

/-- Witness for C4 (amended): one concrete field row with a distinct key,
for which the second run performs zero writes. -/
theorem C4_extraction_idempotent_amended_witness :
    (([{ model := "m".data, model_table := none, field_name := "f".data,
         label_i18n := [("ja", "abc".data)],
         notes := [] }] : List FieldSrcRow).map fieldNk).Nodup ∧
    (extract_field (fun s => s) "upsert_if_changed"
        [{ model := "m".data, model_table := none, field_name := "f".data,
           label_i18n := [("ja", "abc".data)], notes := [] }]
        (extract_field (fun s => s) "upsert_if_changed"
          [{ model := "m".data, model_table := none, field_name := "f".data,
             label_i18n := [("ja", "abc".data)], notes := [] }] ⟨[], 0⟩).1).2.2
      = 0 :=
  ⟨by decide,
   (C4_extraction_idempotent_amended (fun s => s)
     [{ model := "m".data, model_table := none, field_name := "f".data,
        label_i18n := [("ja", "abc".data)], notes := [] }] (by decide)).2.1⟩

/-! ### C7 — UTF-8-safe truncation -/

theorem utf8Len_append (a b : PyStr) : utf8Len (a ++ b) = utf8Len a + utf8Len b := by
  simp [utf8Len, utf8Encode, List.flatMap_append]

theorem isCont_false_lo (b : Nat) (h : b < 0x80) : isCont b = false := by
  cases hb : isCont b
  · rfl
  · simp only [isCont, Bool.and_eq_true, decide_eq_true_eq] at hb
    omega

theorem isCont_false_hi (b : Nat) (h : 0xC0 ≤ b) : isCont b = false := by
  cases hb : isCont b
  · rfl
  · simp only [isCont, Bool.and_eq_true, decide_eq_true_eq] at hb
    omega

theorem isCont_true_mid (b : Nat) (h1 : 0x80 ≤ b) (h2 : b < 0xC0) :
    isCont b = true := by
  simp only [isCont, Bool.and_eq_true, decide_eq_true_eq]
  omega

/-- Size classification of the UTF-8 encoding of one character. -/
theorem utf8EncodeChar_classes (c : Char) :
    (c.toNat < 0x80 ∧ utf8EncodeChar c = [c.toNat]) ∨
    (0x80 ≤ c.toNat ∧ c.toNat < 0x800 ∧
      utf8EncodeChar c = [0xC0 + c.toNat / 64, 0x80 + c.toNat % 64]) ∨
    (0x800 ≤ c.toNat ∧ c.toNat < 0x10000 ∧
      utf8EncodeChar c = [0xE0 + c.toNat / 4096, 0x80 + (c.toNat / 64) % 64,
        0x80 + c.toNat % 64]) ∨
    (0x10000 ≤ c.toNat ∧ c.toNat < 0x110000 ∧
      utf8EncodeChar c = [0xF0 + c.toNat / 262144, 0x80 + (c.toNat / 4096) % 64,
        0x80 + (c.toNat / 64) % 64, 0x80 + c.toNat % 64]) := by
  have hv : c.toNat < 0xd800 ∨ (0xdfff < c.toNat ∧ c.toNat < 0x110000) := c.valid
  by_cases h1 : c.toNat < 0x80
  · exact Or.inl ⟨h1, by simp [utf8EncodeChar, h1]⟩
  · by_cases h2 : c.toNat < 0x800
    · exact Or.inr (Or.inl ⟨by omega, h2, by simp [utf8EncodeChar, h1, h2]⟩)
    · by_cases h3 : c.toNat < 0x10000
      · exact Or.inr (Or.inr (Or.inl ⟨by omega, h3,
          by simp [utf8EncodeChar, h1, h2, h3]⟩))
      · exact Or.inr (Or.inr (Or.inr ⟨by omega, by omega,
          by simp [utf8EncodeChar, h1, h2, h3]⟩))

theorem cont3ok_enc (n : Nat) (h1 : 0x800 ≤ n) (h2 : n < 0x10000)
    (hv : n < 0xd800 ∨ 0xdfff < n) :
    cont3ok (0xE0 + n / 4096) (0x80 + (n / 64) % 64) = true := by
  simp only [cont3ok]
  by_cases hE : 0xE0 + n / 4096 = 0xE0
  · rw [if_pos hE]
    simp only [Bool.and_eq_true, decide_eq_true_eq]
    omega
  · rw [if_neg hE]
    by_cases hD : 0xE0 + n / 4096 = 0xED
    · rw [if_pos hD]
      simp only [Bool.and_eq_true, decide_eq_true_eq]
      omega
    · rw [if_neg hD]
      exact isCont_true_mid _ (by omega) (by omega)

theorem cont4ok_enc (n : Nat) (h1 : 0x10000 ≤ n) (h2 : n < 0x110000) :
    cont4ok (0xF0 + n / 262144) (0x80 + (n / 4096) % 64) = true := by
  simp only [cont4ok]
  by_cases hF : 0xF0 + n / 262144 = 0xF0
  · rw [if_pos hF]
    simp only [Bool.and_eq_true, decide_eq_true_eq]
    omega
  · rw [if_neg hF]
    by_cases hG : 0xF0 + n / 262144 = 0xF4
    · rw [if_pos hG]
      simp only [Bool.and_eq_true, decide_eq_true_eq]
      omega
    · rw [if_neg hG]
      exact isCont_true_mid _ (by omega) (by omega)

/-- A 2/3/4-byte lead with no following bytes is an incomplete sequence. -/
theorem step_nil_lead (b : Nat) (h1 : 0xC2 ≤ b) (h2 : b ≤ 0xF4) :
    utf8StepCount b [] = none := by
  simp only [utf8StepCount]
  by_cases hA : (0xC2 ≤ b && b ≤ 0xDF) = true
  · rw [if_neg (by omega), if_pos hA]
  · by_cases hB : (0xE0 ≤ b && b ≤ 0xEF) = true
    · rw [if_neg (by omega), if_neg hA, if_pos hB]
    · have hC : (0xF0 ≤ b && b ≤ 0xF4) = true := by
        simp only [Bool.and_eq_true, decide_eq_true_eq] at hA hB ⊢
        omega
      rw [if_neg (by omega), if_neg hA, if_neg hB, if_pos hC]

theorem decode_single_lead (b : Nat) (h1 : 0xC2 ≤ b) (h2 : b ≤ 0xF4) :
    utf8DecodeIgnore [b] = [] := by
  simp only [utf8DecodeIgnore, step_nil_lead b h1 h2]

/-- The decoder consumes exactly one encoded character at the front of the
stream, whatever follows. -/
theorem utf8Decode_encodeChar_append (c : Char) (r : List Nat) :
    utf8DecodeIgnore (utf8EncodeChar c ++ r) = c :: utf8DecodeIgnore r := by
  have hv : c.toNat < 0xd800 ∨ (0xdfff < c.toNat ∧ c.toNat < 0x110000) := c.valid
  have hofn : Char.ofNat c.toNat = c := Char.ofNat_toNat c
  rcases utf8EncodeChar_classes c with ⟨h1, henc⟩ | ⟨h1, h2, henc⟩ |
    ⟨h1, h2, henc⟩ | ⟨h1, h2, henc⟩
  · rw [henc]
    simp only [List.cons_append, List.nil_append, utf8DecodeIgnore]
    have hstep : utf8StepCount c.toNat r = some (some (Char.ofNat c.toNat), 0) := by
      simp only [utf8StepCount]
      rw [if_pos h1]
    simp only [hstep, hofn, List.drop_zero]
  · rw [henc]
    simp only [List.cons_append, List.nil_append, utf8DecodeIgnore]
    have hstep : utf8StepCount (0xC0 + c.toNat / 64) ((0x80 + c.toNat % 64) :: r) =
        some (some (Char.ofNat c.toNat), 1) := by
      simp only [utf8StepCount]
      rw [if_neg (by omega)]
      rw [if_pos (show (0xC2 ≤ 0xC0 + c.toNat / 64 && 0xC0 + c.toNat / 64 ≤ 0xDF)
        = true by simp only [Bool.and_eq_true, decide_eq_true_eq]; omega)]
      rw [if_pos (isCont_true_mid _ (by omega) (by omega))]
      have harith : (0xC0 + c.toNat / 64 - 0xC0) * 64 + (0x80 + c.toNat % 64 - 0x80)
          = c.toNat := by omega
      rw [harith]
    simp only [hstep, hofn, List.drop_succ_cons, List.drop_zero]
  · rw [henc]
    simp only [List.cons_append, List.nil_append, utf8DecodeIgnore]
    have hstep : utf8StepCount (0xE0 + c.toNat / 4096)
        ((0x80 + (c.toNat / 64) % 64) :: (0x80 + c.toNat % 64) :: r) =
        some (some (Char.ofNat c.toNat), 2) := by
      simp only [utf8StepCount]
      rw [if_neg (by omega)]
      rw [if_neg (show ¬((0xC2 ≤ 0xE0 + c.toNat / 4096 &&
        0xE0 + c.toNat / 4096 ≤ 0xDF) = true) by
        simp only [Bool.and_eq_true, decide_eq_true_eq]; omega)]
      rw [if_pos (show (0xE0 ≤ 0xE0 + c.toNat / 4096 &&
        0xE0 + c.toNat / 4096 ≤ 0xEF) = true by
        simp only [Bool.and_eq_true, decide_eq_true_eq]; omega)]
      rw [if_pos (cont3ok_enc c.toNat h1 h2 (by omega))]
      rw [if_pos (isCont_true_mid _ (by omega) (by omega))]
      have harith : (0xE0 + c.toNat / 4096 - 0xE0) * 4096 +
          (0x80 + (c.toNat / 64) % 64 - 0x80) * 64 + (0x80 + c.toNat % 64 - 0x80)
          = c.toNat := by omega
      rw [harith]
    simp only [hstep, hofn, List.drop_succ_cons, List.drop_zero]
  · rw [henc]
    simp only [List.cons_append, List.nil_append, utf8DecodeIgnore]
    have hstep : utf8StepCount (0xF0 + c.toNat / 262144)
        ((0x80 + (c.toNat / 4096) % 64) :: (0x80 + (c.toNat / 64) % 64) ::
          (0x80 + c.toNat % 64) :: r) =
        some (some (Char.ofNat c.toNat), 3) := by
      simp only [utf8StepCount]
      rw [if_neg (by omega)]
      rw [if_neg (show ¬((0xC2 ≤ 0xF0 + c.toNat / 262144 &&
        0xF0 + c.toNat / 262144 ≤ 0xDF) = true) by
        simp only [Bool.and_eq_true, decide_eq_true_eq]; omega)]
      rw [if_neg (show ¬((0xE0 ≤ 0xF0 + c.toNat / 262144 &&
        0xF0 + c.toNat / 262144 ≤ 0xEF) = true) by
        simp only [Bool.and_eq_true, decide_eq_true_eq]; omega)]
      rw [if_pos (show (0xF0 ≤ 0xF0 + c.toNat / 262144 &&
        0xF0 + c.toNat / 262144 ≤ 0xF4) = true by
        simp only [Bool.and_eq_true, decide_eq_true_eq]; omega)]
      rw [if_pos (cont4ok_enc c.toNat h1 h2)]
      rw [if_pos (isCont_true_mid _ (by omega) (by omega))]
      rw [if_pos (isCont_true_mid _ (by omega) (by omega))]
      have harith : (0xF0 + c.toNat / 262144 - 0xF0) * 262144 +
          (0x80 + (c.toNat / 4096) % 64 - 0x80) * 4096 +
          (0x80 + (c.toNat / 64) % 64 - 0x80) * 64 + (0x80 + c.toNat % 64 - 0x80)
          = c.toNat := by omega
      rw [harith]
    simp only [hstep, hofn, List.drop_succ_cons, List.drop_zero]

/-- The decoder inverts the encoder on a fully encoded prefix. -/
theorem utf8Decode_encode_append (p : PyStr) (r : List Nat) :
    utf8DecodeIgnore (utf8Encode p ++ r) = p ++ utf8DecodeIgnore r := by
  induction p with
  | nil => simp [utf8Encode]
  | cons c p ih =>
    rw [show utf8Encode (c :: p) = utf8EncodeChar c ++ utf8Encode p from rfl,
      List.append_assoc, utf8Decode_encodeChar_append, ih]
    rfl

theorem utf8Decode_encode (p : PyStr) : utf8DecodeIgnore (utf8Encode p) = p := by
  have h := utf8Decode_encode_append p []
  rw [List.append_nil] at h
  rw [h]
  simp [utf8DecodeIgnore]

/-- A proper nonempty byte-prefix of one encoded character decodes to nothing
(incomplete sequence at end of input) and consists of a lead byte followed by
continuation bytes. -/
theorem decode_take_lt (c : Char) (j : Nat) (h0 : 0 < j)
    (hj : j < (utf8EncodeChar c).length) :
    utf8DecodeIgnore ((utf8EncodeChar c).take j) = [] ∧
    ∃ lead conts, (utf8EncodeChar c).take j = lead :: conts ∧
      0xC2 ≤ lead ∧ lead ≤ 0xF4 ∧ (∀ b ∈ conts, isCont b = true) := by
  have hv : c.toNat < 0xd800 ∨ (0xdfff < c.toNat ∧ c.toNat < 0x110000) := c.valid
  rcases utf8EncodeChar_classes c with ⟨h1, henc⟩ | ⟨h1, h2, henc⟩ |
    ⟨h1, h2, henc⟩ | ⟨h1, h2, henc⟩
  · rw [henc] at hj
    simp at hj
    omega
  · rw [henc] at hj ⊢
    simp only [List.length_cons, List.length_nil] at hj
    have hj1 : j = 1 := by omega
    subst hj1
    have htake : [0xC0 + c.toNat / 64, 0x80 + c.toNat % 64].take 1 =
        [0xC0 + c.toNat / 64] := rfl
    rw [htake]
    refine ⟨decode_single_lead _ (by omega) (by omega),
      0xC0 + c.toNat / 64, [], rfl, by omega, by omega,
      fun b hb => absurd hb (List.not_mem_nil b)⟩
  · rw [henc] at hj ⊢
    simp only [List.length_cons, List.length_nil] at hj
    by_cases hj1 : j = 1
    · subst hj1
      have htake : [0xE0 + c.toNat / 4096, 0x80 + (c.toNat / 64) % 64,
          0x80 + c.toNat % 64].take 1 = [0xE0 + c.toNat / 4096] := rfl
      rw [htake]
      refine ⟨decode_single_lead _ (by omega) (by omega),
        0xE0 + c.toNat / 4096, [], rfl, by omega, by omega,
        fun b hb => absurd hb (List.not_mem_nil b)⟩
    · have hj2 : j = 2 := by omega
      subst hj2
      have htake : [0xE0 + c.toNat / 4096, 0x80 + (c.toNat / 64) % 64,
          0x80 + c.toNat % 64].take 2 =
          [0xE0 + c.toNat / 4096, 0x80 + (c.toNat / 64) % 64] := rfl
      rw [htake]
      have hstep : utf8StepCount (0xE0 + c.toNat / 4096)
          [0x80 + (c.toNat / 64) % 64] = none := by
        simp only [utf8StepCount]
        rw [if_neg (by omega)]
        rw [if_neg (show ¬((0xC2 ≤ 0xE0 + c.toNat / 4096 &&
          0xE0 + c.toNat / 4096 ≤ 0xDF) = true) by
          simp only [Bool.and_eq_true, decide_eq_true_eq]; omega)]
        rw [if_pos (show (0xE0 ≤ 0xE0 + c.toNat / 4096 &&
          0xE0 + c.toNat / 4096 ≤ 0xEF) = true by
          simp only [Bool.and_eq_true, decide_eq_true_eq]; omega)]
        rw [if_pos (cont3ok_enc c.toNat h1 h2 (by omega))]
      refine ⟨by simp only [utf8DecodeIgnore, hstep], 0xE0 + c.toNat / 4096,
        [0x80 + (c.toNat / 64) % 64], rfl, by omega, by omega, ?_⟩
      intro b hb
      rw [List.mem_singleton.mp hb]
      exact isCont_true_mid _ (by omega) (by omega)
  · rw [henc] at hj ⊢
    simp only [List.length_cons, List.length_nil] at hj
    by_cases hj1 : j = 1
    · subst hj1
      have htake : [0xF0 + c.toNat / 262144, 0x80 + (c.toNat / 4096) % 64,
          0x80 + (c.toNat / 64) % 64, 0x80 + c.toNat % 64].take 1 =
          [0xF0 + c.toNat / 262144] := rfl
      rw [htake]
      refine ⟨decode_single_lead _ (by omega) (by omega),
        0xF0 + c.toNat / 262144, [], rfl, by omega, by omega,
        fun b hb => absurd hb (List.not_mem_nil b)⟩
    · by_cases hj2 : j = 2
      · subst hj2
        have htake : [0xF0 + c.toNat / 262144, 0x80 + (c.toNat / 4096) % 64,
            0x80 + (c.toNat / 64) % 64, 0x80 + c.toNat % 64].take 2 =
            [0xF0 + c.toNat / 262144, 0x80 + (c.toNat / 4096) % 64] := rfl
        rw [htake]
        have hstep : utf8StepCount (0xF0 + c.toNat / 262144)
            [0x80 + (c.toNat / 4096) % 64] = none := by
          simp only [utf8StepCount]
          rw [if_neg (by omega)]
          rw [if_neg (show ¬((0xC2 ≤ 0xF0 + c.toNat / 262144 &&
            0xF0 + c.toNat / 262144 ≤ 0xDF) = true) by
            simp only [Bool.and_eq_true, decide_eq_true_eq]; omega)]
          rw [if_neg (show ¬((0xE0 ≤ 0xF0 + c.toNat / 262144 &&
            0xF0 + c.toNat / 262144 ≤ 0xEF) = true) by
            simp only [Bool.and_eq_true, decide_eq_true_eq]; omega)]
          rw [if_pos (show (0xF0 ≤ 0xF0 + c.toNat / 262144 &&
            0xF0 + c.toNat / 262144 ≤ 0xF4) = true by
            simp only [Bool.and_eq_true, decide_eq_true_eq]; omega)]
          rw [if_pos (cont4ok_enc c.toNat h1 h2)]
        refine ⟨by simp only [utf8DecodeIgnore, hstep], 0xF0 + c.toNat / 262144,
          [0x80 + (c.toNat / 4096) % 64], rfl, by omega, by omega, ?_⟩
        intro b hb
        rw [List.mem_singleton.mp hb]
        exact isCont_true_mid _ (by omega) (by omega)
      · have hj3 : j = 3 := by omega
        subst hj3
        have htake : [0xF0 + c.toNat / 262144, 0x80 + (c.toNat / 4096) % 64,
            0x80 + (c.toNat / 64) % 64, 0x80 + c.toNat % 64].take 3 =
            [0xF0 + c.toNat / 262144, 0x80 + (c.toNat / 4096) % 64,
              0x80 + (c.toNat / 64) % 64] := rfl
        rw [htake]
        have hstep : utf8StepCount (0xF0 + c.toNat / 262144)
            [0x80 + (c.toNat / 4096) % 64, 0x80 + (c.toNat / 64) % 64] = none := by
          simp only [utf8StepCount]
          rw [if_neg (by omega)]
          rw [if_neg (show ¬((0xC2 ≤ 0xF0 + c.toNat / 262144 &&
            0xF0 + c.toNat / 262144 ≤ 0xDF) = true) by
            simp only [Bool.and_eq_true, decide_eq_true_eq]; omega)]
          rw [if_neg (show ¬((0xE0 ≤ 0xF0 + c.toNat / 262144 &&
            0xF0 + c.toNat / 262144 ≤ 0xEF) = true) by
            simp only [Bool.and_eq_true, decide_eq_true_eq]; omega)]
          rw [if_pos (show (0xF0 ≤ 0xF0 + c.toNat / 262144 &&
            0xF0 + c.toNat / 262144 ≤ 0xF4) = true by
            simp only [Bool.and_eq_true, decide_eq_true_eq]; omega)]
          rw [if_pos (cont4ok_enc c.toNat h1 h2)]
          rw [if_pos (isCont_true_mid _ (by omega) (by omega))]
        refine ⟨by simp only [utf8DecodeIgnore, hstep], 0xF0 + c.toNat / 262144,
          [0x80 + (c.toNat / 4096) % 64, 0x80 + (c.toNat / 64) % 64], rfl,
          by omega, by omega, ?_⟩
        intro b hb
        simp at hb
        rcases hb with hb | hb <;>
          (rw [hb]; exact isCont_true_mid _ (by omega) (by omega))

theorem dropWhile_append_all {α : Type} (p : α → Bool) :
    ∀ (l₁ l₂ : List α), (∀ b ∈ l₁, p b = true) →
    List.dropWhile p (l₁ ++ l₂) = List.dropWhile p l₂ := by
  intro l₁
  induction l₁ with
  | nil => intro l₂ _; rfl
  | cons a t ih =>
    intro l₂ h
    rw [List.cons_append, List.dropWhile_cons_of_pos (h a (List.mem_cons_self a t))]
    exact ih l₂ (fun b hb => h b (List.mem_cons_of_mem _ hb))

/-- The trailing-continuation strip on a block ending in a lead byte followed
only by continuation bytes keeps exactly the lead. -/
theorem strip_append_lead (x : List Nat) (lead : Nat) (conts : List Nat)
    (hl : isCont lead = false) (hc : ∀ b ∈ conts, isCont b = true) :
    stripTrailingCont (x ++ lead :: conts) = x ++ [lead] := by
  simp only [stripTrailingCont]
  rw [List.reverse_append]
  rw [show (lead :: conts).reverse = conts.reverse ++ [lead] from by simp]
  rw [List.append_assoc]
  rw [dropWhile_append_all _ _ _ (fun b hb => hc b (List.mem_reverse.mp hb))]
  rw [show ([lead] ++ x.reverse) = lead :: x.reverse from rfl]
  rw [List.dropWhile_cons_of_neg (by simp [hl])]
  simp

/-- Stripping trailing continuation bytes from a fully encoded string drops at
most the final character, and decoding then recovers a character prefix. -/
theorem strip_encode_decode (p : PyStr) :
    ∃ p1 p2 : PyStr, p = p1 ++ p2 ∧
      utf8DecodeIgnore (stripTrailingCont (utf8Encode p)) = p1 ∧
      utf8Len p1 ≤ utf8Len p := by
  rcases List.eq_nil_or_concat p with hnil | ⟨p2, c, hcat⟩
  · subst hnil
    exact ⟨[], [], rfl, by simp [utf8Encode, stripTrailingCont, utf8DecodeIgnore],
      le_rfl⟩
  · rw [List.concat_eq_append] at hcat
    subst hcat
    have henc : utf8Encode (p2 ++ [c]) = utf8Encode p2 ++ utf8EncodeChar c := by
      simp [utf8Encode]
    rcases utf8EncodeChar_classes c with ⟨h1, hc1⟩ | ⟨h1, h2, hc2⟩ |
      ⟨h1, h2, hc3⟩ | ⟨h1, h2, hc4⟩
    · refine ⟨p2 ++ [c], [], by simp, ?_, le_rfl⟩
      rw [henc, hc1]
      rw [show (utf8Encode p2 ++ [c.toNat]) = utf8Encode p2 ++ c.toNat :: []
        from rfl]
      rw [strip_append_lead _ _ _ (isCont_false_lo _ h1)
        (fun b hb => absurd hb (List.not_mem_nil b))]
      rw [show (utf8Encode p2 ++ [c.toNat]) = utf8Encode p2 ++ utf8EncodeChar c
        from by rw [hc1], ← henc, utf8Decode_encode]
    · refine ⟨p2, [c], rfl, ?_, by rw [utf8Len_append]; omega⟩
      rw [henc, hc2]
      rw [show ([0xC0 + c.toNat / 64, 0x80 + c.toNat % 64] : List Nat) =
        (0xC0 + c.toNat / 64) :: [0x80 + c.toNat % 64] from rfl]
      rw [strip_append_lead _ _ _ (isCont_false_hi _ (by omega)) ?_]
      · rw [utf8Decode_encode_append, decode_single_lead _ (by omega) (by omega)]
        simp
      · intro b hb
        rw [List.mem_singleton.mp hb]
        exact isCont_true_mid _ (by omega) (by omega)
    · refine ⟨p2, [c], rfl, ?_, by rw [utf8Len_append]; omega⟩
      rw [henc, hc3]
      rw [show ([0xE0 + c.toNat / 4096, 0x80 + (c.toNat / 64) % 64,
        0x80 + c.toNat % 64] : List Nat) = (0xE0 + c.toNat / 4096) ::
        [0x80 + (c.toNat / 64) % 64, 0x80 + c.toNat % 64] from rfl]
      rw [strip_append_lead _ _ _ (isCont_false_hi _ (by omega)) ?_]
      · rw [utf8Decode_encode_append, decode_single_lead _ (by omega) (by omega)]
        simp
      · intro b hb
        simp at hb
        rcases hb with hb | hb <;>
          (rw [hb]; exact isCont_true_mid _ (by omega) (by omega))
    · refine ⟨p2, [c], rfl, ?_, by rw [utf8Len_append]; omega⟩
      rw [henc, hc4]
      rw [show ([0xF0 + c.toNat / 262144, 0x80 + (c.toNat / 4096) % 64,
        0x80 + (c.toNat / 64) % 64, 0x80 + c.toNat % 64] : List Nat) =
        (0xF0 + c.toNat / 262144) :: [0x80 + (c.toNat / 4096) % 64,
        0x80 + (c.toNat / 64) % 64, 0x80 + c.toNat % 64] from rfl]
      rw [strip_append_lead _ _ _ (isCont_false_hi _ (by omega)) ?_]
      · rw [utf8Decode_encode_append, decode_single_lead _ (by omega) (by omega)]
        simp
      · intro b hb
        simp at hb
        rcases hb with hb | hb | hb <;>
          (rw [hb]; exact isCont_true_mid _ (by omega) (by omega))

/-- Any byte-level `take` of an encoded string splits into a fully encoded
character prefix plus (possibly) a proper prefix of one more character. -/
theorem utf8_take_split : ∀ (s : PyStr) (k : Nat),
    (∃ p q, s = p ++ q ∧ (utf8Encode s).take k = utf8Encode p) ∨
    (∃ p c q j, s = p ++ c :: q ∧ 0 < j ∧ j < (utf8EncodeChar c).length ∧
      (utf8Encode s).take k = utf8Encode p ++ (utf8EncodeChar c).take j) := by
  intro s
  induction s with
  | nil =>
    intro k
    exact Or.inl ⟨[], [], rfl, by simp [utf8Encode]⟩
  | cons c s ih =>
    intro k
    have henc : utf8Encode (c :: s) = utf8EncodeChar c ++ utf8Encode s := rfl
    by_cases hk : (utf8EncodeChar c).length ≤ k
    · have htake : (utf8Encode (c :: s)).take k =
          utf8EncodeChar c ++ (utf8Encode s).take (k - (utf8EncodeChar c).length) := by
        rw [henc, List.take_append_eq_append_take, List.take_of_length_le hk]
      rcases ih (k - (utf8EncodeChar c).length) with ⟨p, q, hs, ht⟩ |
        ⟨p, c2, q, j, hs, hj0, hjl, ht⟩
      · refine Or.inl ⟨c :: p, q, by rw [hs, List.cons_append], ?_⟩
        rw [htake, ht]
        rfl
      · refine Or.inr ⟨c :: p, c2, q, j, by rw [hs, List.cons_append], hj0, hjl, ?_⟩
        rw [htake, ht]
        simp [utf8Encode]
    · have htake : (utf8Encode (c :: s)).take k = (utf8EncodeChar c).take k := by
        rw [henc, List.take_append_eq_append_take]
        have hz : k - (utf8EncodeChar c).length = 0 := by omega
        rw [hz, List.take_zero, List.append_nil]
      by_cases hk0 : k = 0
      · refine Or.inl ⟨[], c :: s, rfl, ?_⟩
        rw [hk0]
        simp [utf8Encode]
      · refine Or.inr ⟨[], c, s, k, rfl, by omega, by omega, ?_⟩
        rw [htake]
        simp [utf8Encode]

/-- `_safe_truncate_utf8` always returns a character prefix of its input
within the byte budget: it never splits a code point and never exceeds the
budget, for every input and every budget. -/
theorem safe_truncate_spec (s : PyStr) (maxBytes : Nat) :
    ∃ p q, s = p ++ q ∧ safe_truncate_utf8 s maxBytes = p ∧
      utf8Len (safe_truncate_utf8 s maxBytes) ≤ maxBytes := by
  by_cases hemp : s.isEmpty = true
  · have hs : s = [] := by simpa using hemp
    subst hs
    refine ⟨[], [], rfl, by simp [safe_truncate_utf8], ?_⟩
    simp [safe_truncate_utf8, utf8Len, utf8Encode]
  · by_cases hlen : (utf8Encode s).length ≤ maxBytes
    · have hval : safe_truncate_utf8 s maxBytes = s := by
        simp only [safe_truncate_utf8]
        rw [if_neg hemp, if_pos hlen]
      exact ⟨s, [], by simp, hval, by rw [hval]; exact hlen⟩
    · have hdef : safe_truncate_utf8 s maxBytes =
          utf8DecodeIgnore ((utf8Encode s).take maxBytes) := by
        simp only [safe_truncate_utf8]
        rw [if_neg hemp, if_neg hlen]
      rcases utf8_take_split s maxBytes with ⟨p, q, hs, ht⟩ |
        ⟨p, c, q, j, hs, hj0, hjl, ht⟩
      · have hval : safe_truncate_utf8 s maxBytes = p := by
          rw [hdef, ht, utf8Decode_encode]
        refine ⟨p, q, hs, hval, ?_⟩
        rw [hval]
        show (utf8Encode p).length ≤ maxBytes
        have hlent := congrArg List.length ht
        rw [List.length_take] at hlent
        omega
      · obtain ⟨hdecj, _, _, _, _, _, _⟩ := decode_take_lt c j hj0 hjl
        have hval : safe_truncate_utf8 s maxBytes = p := by
          rw [hdef, ht, utf8Decode_encode_append, hdecj, List.append_nil]
        refine ⟨p, c :: q, hs, hval, ?_⟩
        rw [hval]
        show (utf8Encode p).length ≤ maxBytes
        have hlent := congrArg List.length ht
        rw [List.length_take, List.length_append] at hlent
        omega

/-- `PackService._truncate` with a byte budget of at least 3: the result is
either the input itself or a character prefix of the input followed by an
ellipsis, and its encoded byte length stays within the budget. -/
theorem pack_truncate_spec (limit : Nat) (s : PyStr) (hl : 3 ≤ limit) :
    ∃ p q, s = p ++ q ∧
      (pack_truncate limit s = s ∨ pack_truncate limit s = p ++ ['…']) ∧
      utf8Len (pack_truncate limit s) ≤ limit := by
  by_cases hlen : (utf8Encode s).length ≤ limit
  · have hval : pack_truncate limit s = s := by
      simp only [pack_truncate]
      rw [if_pos hlen]
    exact ⟨s, [], by simp, Or.inl hval, by rw [hval]; exact hlen⟩
  · have hslice : pySliceTo (utf8Encode s) ((limit : Int) - 3) =
        (utf8Encode s).take (limit - 3) := by
      simp only [pySliceTo]
      rw [if_neg (by omega)]
      congr 1
      omega
    have hstep : pack_truncate limit s =
        utf8DecodeIgnore (stripTrailingCont ((utf8Encode s).take (limit - 3)))
          ++ ['…'] := by
      simp only [pack_truncate]
      rw [if_neg hlen, hslice]
    have h3 : utf8Len ['…'] = 3 := by decide
    rcases utf8_take_split s (limit - 3) with ⟨p, q, hs, ht⟩ |
      ⟨p, c, q, j, hs, hj0, hjl, ht⟩
    · obtain ⟨p1, p2, hp, hdec, hlenp⟩ := strip_encode_decode p
      have hval : pack_truncate limit s = p1 ++ ['…'] := by
        rw [hstep, ht, hdec]
      refine ⟨p1, p2 ++ q, by rw [hs, hp, List.append_assoc], Or.inr hval, ?_⟩
      rw [hval, utf8Len_append, h3]
      have hplen : utf8Len p ≤ limit - 3 := by
        show (utf8Encode p).length ≤ limit - 3
        have hlent := congrArg List.length ht
        rw [List.length_take] at hlent
        omega
      have : utf8Len p1 ≤ utf8Len p := hlenp
      omega
    · obtain ⟨hdecj, lead, conts, htj, hl1, hl2, hcc⟩ := decode_take_lt c j hj0 hjl
      have hval : pack_truncate limit s = p ++ ['…'] := by
        rw [hstep, ht, htj,
          strip_append_lead _ _ _ (isCont_false_hi lead (by omega)) hcc,
          utf8Decode_encode_append, decode_single_lead lead hl1 hl2,
          List.append_nil]
      refine ⟨p, c :: q, hs, Or.inr hval, ?_⟩
      rw [hval, utf8Len_append, h3]
      have hplen : utf8Len p ≤ limit - 3 := by
        show (utf8Encode p).length ≤ limit - 3
        have hlent := congrArg List.length ht
        rw [List.length_take, List.length_append] at hlent
        omega
      omega

/-- C7: counterexample.  With byte budget 0 (any budget below 3), the
packaging truncation slices at a negative index (`data[:limit-3]` wraps
around) and appends a 3-byte ellipsis: the output of `_truncate(0)` on
`hello` is 5 encoded bytes, exceeding the budget. -/
theorem C7_counterexample :
    utf8Len (pack_truncate 0 "hello".data) = 5 ∧
    ¬(utf8Len (pack_truncate 0 "hello".data) ≤ 0) := by
  have harg : stripTrailingCont (pySliceTo (utf8Encode "hello".data)
      (((0 : Nat) : Int) - 3)) = utf8Encode "he".data := by decide
  have hdec : pack_truncate 0 "hello".data = "he".data ++ ['…'] := by
    simp only [pack_truncate]
    rw [if_neg (by decide), harg, utf8Decode_encode]
  rw [hdec]
  exact ⟨by decide, by decide⟩

/-- C7 (amended): `_safe_truncate_utf8` meets the claim in full — for every
input and every byte budget it returns a character prefix (never splitting a
code point) whose encoded length is within the budget.  `PackService._truncate`
meets it only for budgets of at least 3: there the result is the input itself
or a character prefix plus the ellipsis, within the budget; budgets below 3
overshoot (see the counterexample). -/
theorem C7_truncation_amended :
    (∀ (s : PyStr) (maxBytes : Nat), ∃ p q, s = p ++ q ∧
      safe_truncate_utf8 s maxBytes = p ∧
      utf8Len (safe_truncate_utf8 s maxBytes) ≤ maxBytes) ∧
    (∀ (limit : Nat) (s : PyStr), 3 ≤ limit → ∃ p q, s = p ++ q ∧
      (pack_truncate limit s = s ∨ pack_truncate limit s = p ++ ['…']) ∧
      utf8Len (pack_truncate limit s) ≤ limit) :=
  ⟨safe_truncate_spec, pack_truncate_spec⟩

/-- Witness for C7 (amended): instantiated at concrete inputs — truncating
`hi` to 1 byte and `hello` to 4 bytes. -/
theorem C7_truncation_amended_witness :
    (∃ p q, "hi".data = p ++ q ∧ safe_truncate_utf8 "hi".data 1 = p ∧
      utf8Len (safe_truncate_utf8 "hi".data 1) ≤ 1) ∧
    (∃ p q, "hello".data = p ++ q ∧
      (pack_truncate 4 "hello".data = "hello".data ∨
        pack_truncate 4 "hello".data = p ++ ['…']) ∧
      utf8Len (pack_truncate 4 "hello".data) ≤ 4) :=
  ⟨C7_truncation_amended.1 "hi".data 1,
   C7_truncation_amended.2 4 "hello".data (by decide)⟩

end DevPortal
